import Mathlib

/-!
# pyglpainter vertex shaders

A shallow embedding of the two GLSL 1.20 vertex shaders of the repository,

* `src/vertex.c` (the standard shader), embedded as `vertex.main`, and
* `src/shaders/heightmap-vertex.c` (the heightmap shader), embedded as
  `heightmap_vertex.main`,

together with the fragment of GLSL they use: the types `vec3`, `vec4` and
`mat4`, the constructor `vec4(vec3, float)`, the component selector `.x`/`.z`,
and the operator `*` on `mat4 * mat4` and `mat4 * vec4`.

The scalar type of the shaders is a parameter `α` of the two `main`
functions.  The shaders themselves only need a sum, a product and the literal
`1.0`, so the definitions ask for `[Add α] [Mul α] [One α]` and nothing more,
and every theorem states which laws of arithmetic it uses through its instance
argument.  Two kinds of scalars are used:

* exact arithmetic (a semiring, or the rationals), the arithmetic the
  specification speaks of;
* `GLSL.float`, IEEE 754 binary32 with its rounding, infinities, NaN and signed
  zeros.

The statements about colours hold for every `α`.  The statements about
positions that rest on associativity, on `a * 0 = 0` or on an exact sum hold
in exact arithmetic and fail in binary32; for these the file gives the
binary32 counterexample and what does hold in binary32.
-/

namespace GLSL

/-- GLSL `vec3`: three components, selected by `.x`, `.y`, `.z`. -/
structure vec3 (α : Type) where
  x : α
  y : α
  z : α
deriving DecidableEq

/-- GLSL `vec4`: four components, selected by `.x`, `.y`, `.z`, `.w`
(as a colour: red, green, blue, alpha). -/
structure vec4 (α : Type) where
  x : α
  y : α
  z : α
  w : α
deriving DecidableEq

/-- GLSL `mat4`: four columns, each a `vec4`.  GLSL matrices are stored by
columns: `m[i]` is column `i` and `m[i][j]` is the entry in column `i`,
row `j`.  The fields `c0 .. c3` are the columns `m[0] .. m[3]`. -/
structure mat4 (α : Type) where
  c0 : vec4 α
  c1 : vec4 α
  c2 : vec4 α
  c3 : vec4 α
deriving DecidableEq

variable {α : Type}

/-- The GLSL constructor `vec4(v, w)` with `v : vec3` and `w : float`: the
components of `v` followed by `w`. -/
def vec4.ofVec3 (v : vec3 α) (w : α) : vec4 α :=
  ⟨v.x, v.y, v.z, w⟩

/-- The GLSL product `m * v` of a `mat4` and a `vec4` (the vector is treated
as a column): component `j` of the result is
`m[0][j] * v.x + m[1][j] * v.y + m[2][j] * v.z + m[3][j] * v.w`. -/
def mat4.mulVec [Add α] [Mul α] (m : mat4 α) (v : vec4 α) : vec4 α :=
  ⟨m.c0.x * v.x + m.c1.x * v.y + m.c2.x * v.z + m.c3.x * v.w,
   m.c0.y * v.x + m.c1.y * v.y + m.c2.y * v.z + m.c3.y * v.w,
   m.c0.z * v.x + m.c1.z * v.y + m.c2.z * v.z + m.c3.z * v.w,
   m.c0.w * v.x + m.c1.w * v.y + m.c2.w * v.z + m.c3.w * v.w⟩

/-- The GLSL product `m * n` of two `mat4`: the linear-algebraic product,
whose column `i` is `m` times column `i` of `n`, that is
`r[i][j] = m[0][j] * n[i][0] + m[1][j] * n[i][1] + m[2][j] * n[i][2]
+ m[3][j] * n[i][3]`. -/
def mat4.mul [Add α] [Mul α] (m n : mat4 α) : mat4 α :=
  ⟨m.mulVec n.c0, m.mulVec n.c1, m.mulVec n.c2, m.mulVec n.c3⟩

instance [Add α] [Mul α] : Mul (mat4 α) := ⟨mat4.mul⟩

instance [Add α] [Mul α] : HMul (mat4 α) (vec4 α) (vec4 α) := ⟨mat4.mulVec⟩

/-- The GLSL constructor `mat4(d)` with a single scalar `d`: `d` on the
diagonal and zero elsewhere. -/
def mat4.diag [Zero α] (d : α) : mat4 α :=
  ⟨⟨d, 0, 0, 0⟩, ⟨0, d, 0, 0⟩, ⟨0, 0, d, 0⟩, ⟨0, 0, 0, d⟩⟩

/-- The 4x4 identity matrix, `mat4(1.0)`. -/
def mat4.identity [Zero α] [One α] : mat4 α := mat4.diag 1

/-- The all-zero 4x4 matrix, `mat4(0.0)`. -/
def mat4.zero [Zero α] : mat4 α :=
  ⟨⟨0, 0, 0, 0⟩, ⟨0, 0, 0, 0⟩, ⟨0, 0, 0, 0⟩, ⟨0, 0, 0, 0⟩⟩

/-- The translation matrix by `(tx, ty, tz)`: the identity with fourth column
`(tx, ty, tz, 1)` (GLSL `m[3] = vec4(tx, ty, tz, 1.0)`). -/
def mat4.translation [Zero α] [One α] (tx ty tz : α) : mat4 α :=
  ⟨⟨1, 0, 0, 0⟩, ⟨0, 1, 0, 0⟩, ⟨0, 0, 1, 0⟩, ⟨tx, ty, tz, 1⟩⟩

/-- The bottom row of a `mat4`, left to right: the `w` components of its four
columns (GLSL `m[0].w, m[1].w, m[2].w, m[3].w`). -/
def mat4.bottomRow (m : mat4 α) : vec4 α :=
  ⟨m.c0.w, m.c1.w, m.c2.w, m.c3.w⟩

/-- A `mat4` is affine when its bottom row is `(0, 0, 0, 1)`. -/
def mat4.IsAffine [Zero α] [One α] (m : mat4 α) : Prop :=
  m.bottomRow = ⟨0, 0, 0, 1⟩

instance [Zero α] [One α] [DecidableEq α] (m : mat4 α) : Decidable m.IsAffine := by
  unfold mat4.IsAffine
  infer_instance

/-! ### The standard reading of vectors and matrices

`vec4.toFn` and `mat4.toMatrix` read a GLSL vector and a GLSL matrix as the
vector and the (row, column)-indexed matrix of linear algebra. -/

/-- The components of a `vec4`, indexed by `0 .. 3`. -/
def vec4.toFn (v : vec4 α) : Fin 4 → α := ![v.x, v.y, v.z, v.w]

/-- The columns of a `mat4`, indexed by `0 .. 3` (GLSL `m[i]`). -/
def mat4.col (m : mat4 α) : Fin 4 → vec4 α := ![m.c0, m.c1, m.c2, m.c3]

/-- A `mat4` as a matrix indexed by (row, column): the entry in row `i` and
column `j` is component `i` of column `j` (GLSL `m[j][i]`). -/
def mat4.toMatrix (m : mat4 α) : Matrix (Fin 4) (Fin 4) α :=
  Matrix.of fun i j => (m.col j).toFn i

/-- What a vertex shader hands to the next pipeline stage: the built-in
output `gl_Position` and the varying `v_color` both shaders declare. -/
structure Outputs (α : Type) where
  gl_Position : vec4 α
  v_color : vec4 α
deriving DecidableEq

/-! ### The scalar type `float` as IEEE 754 binary32

GLSL 1.20 (section 4.1.4) expects a `float` to match the IEEE single precision
format in precision and range, and leaves the precision of the operations to
the implementation.  `float` below is that format, datum for datum (all NaNs
are one value `nan`), with the sum and the product of IEEE 754: the exact
result rounded to nearest, ties to even.  It is the scalar type at which the
claims about positions are tested against rounding, overflow and underflow. -/

/-- A datum of IEEE 754 binary32: a NaN, an infinity with its sign, or a
finite number of magnitude `m * 2 ^ e` with its sign (`neg = true` for `-`).
The finite data of the format are the `fin neg m e` with `m < 2 ^ 24` and
`-149 ≤ e ≤ 104`, where `e = -149` (zeros and subnormals) or `2 ^ 23 ≤ m`
(normals); see `float.valid`. -/
inductive float where
  | nan : float
  | inf (neg : Bool) : float
  | fin (neg : Bool) (m : Nat) (e : Int) : float
deriving DecidableEq

namespace float

/-- The quotient `m / d` rounded to the nearest integer, ties to even. -/
def roundHalfEven (m d : Nat) : Nat :=
  let q := m / d
  let r := m % d
  if 2 * r < d then q
  else if d < 2 * r then q + 1
  else if q % 2 = 0 then q else q + 1

/-- The position of the leading binary digit of `n`: the `k` with
`2 ^ k ≤ n < 2 ^ (k + 1)` for `n ≠ 0` (and `0` for `n = 0`), found by halving
at most `fuel` times. -/
def ilog2 : (fuel : Nat) → (n : Nat) → Nat
  | 0, _ => 0
  | fuel + 1, n => if n < 2 then 0 else ilog2 fuel (n / 2) + 1

/-- The exact magnitude `m * 2 ^ e` with sign `neg`, rounded to binary32, to
nearest and ties to even.  The unit in the last place is `2 ^ qe`, 24 binary
digits below the leading digit of `m * 2 ^ e` and never below `2 ^ (-149)`;
a magnitude that rounds up to `2 ^ 24` units moves to the next exponent, and
above the exponent `104` of the largest finite numbers the result is an
infinity. -/
def round (neg : Bool) (m : Nat) (e : Int) : float :=
  if m = 0 then fin neg 0 (-149)
  else
    let qe : Int := max ((ilog2 m m : Int) + e - 23) (-149)
    let s : Int := e - qe
    let r : Nat := if 0 ≤ s then m * 2 ^ s.toNat else roundHalfEven m (2 ^ (-s).toNat)
    let r' : Nat := if r = 2 ^ 24 then 2 ^ 23 else r
    let qe' : Int := if r = 2 ^ 24 then qe + 1 else qe
    if 104 < qe' then inf neg else fin neg r' qe'

/-- The product of binary32: NaN if an operand is NaN or for
`infinity * zero`, otherwise the exact product rounded, with the signs
combined. -/
def mul : float → float → float
  | nan, _ => nan
  | _, nan => nan
  | inf n₁, inf n₂ => inf (xor n₁ n₂)
  | inf n₁, fin n₂ m _ => if m = 0 then nan else inf (xor n₁ n₂)
  | fin n₁ m _, inf n₂ => if m = 0 then nan else inf (xor n₁ n₂)
  | fin n₁ m₁ e₁, fin n₂ m₂ e₂ => round (xor n₁ n₂) (m₁ * m₂) (e₁ + e₂)

/-- The sum of binary32: NaN if an operand is NaN or for
`infinity + (-infinity)`, otherwise the exact sum rounded; an exact sum of
zero is `-0` when both operands are negative and `+0` otherwise. -/
def add : float → float → float
  | nan, _ => nan
  | _, nan => nan
  | inf n₁, inf n₂ => if n₁ = n₂ then inf n₁ else nan
  | inf n₁, fin _ _ _ => inf n₁
  | fin _ _ _, inf n₂ => inf n₂
  | fin n₁ m₁ e₁, fin n₂ m₂ e₂ =>
    let e := min e₁ e₂
    let a : Int := (if n₁ then -1 else 1) * (m₁ * 2 ^ (e₁ - e).toNat : Nat)
    let b : Int := (if n₂ then -1 else 1) * (m₂ * 2 ^ (e₂ - e).toNat : Nat)
    let s := a + b
    if s = 0 then fin (n₁ && n₂) 0 (-149)
    else round (decide (s < 0)) s.natAbs e

instance : Add float := ⟨add⟩

instance : Mul float := ⟨mul⟩

/-- The literal `0.0` is `+0`. -/
instance : Zero float := ⟨fin false 0 (-149)⟩

/-- The literal `1.0` is `2 ^ 23 * 2 ^ (-23)`. -/
instance : One float := ⟨fin false (2 ^ 23) (-23)⟩

/-- The float nearest to the integer `n`. -/
def ofInt (n : Int) : float := round (decide (n < 0)) n.natAbs 0

/-- The float nearest to `2 ^ k`. -/
def pow2 (k : Int) : float := round false 1 k

/-- A datum is finite when it is neither a NaN nor an infinity. -/
def isFinite : float → Bool
  | fin _ _ _ => true
  | _ => false

/-- A datum is a zero when it is `+0` or `-0`. -/
def isZero : float → Bool
  | fin _ m _ => decide (m = 0)
  | _ => false

/-- The data of the binary32 format: every NaN and infinity, and the finite
`fin neg m e` that are a zero or a subnormal (`e = -149`, `m < 2 ^ 23`) or a
normal number (`2 ^ 23 ≤ m < 2 ^ 24`, `-149 ≤ e ≤ 104`). -/
def valid : float → Bool
  | fin _ m e => decide (m < 2 ^ 24 ∧ -149 ≤ e ∧ e ≤ 104 ∧ (e = -149 ∨ 2 ^ 23 ≤ m))
  | _ => true

/-- Two data are the same number when they are equal or both are zeros (the
comparison `==` of IEEE 754, which does not tell `-0` from `+0`, on data that
are not NaN). -/
def same (a b : float) : Prop := a = b ∨ (a.isZero = true ∧ b.isZero = true)

instance (a b : float) : Decidable (same a b) := by
  unfold same
  infer_instance

/-- The rational number a finite datum stands for. -/
def toRat : float → Option ℚ
  | fin neg m e => some ((if neg then -1 else 1) * (m : ℚ) * (2 : ℚ) ^ e)
  | _ => none

end float

/-- A predicate holds of the four components of a `vec4`. -/
def vec4.all (p : α → Bool) (v : vec4 α) : Bool :=
  p v.x && p v.y && p v.z && p v.w

/-- A predicate holds of the three components of a `vec3`. -/
def vec3.all (p : α → Bool) (v : vec3 α) : Bool :=
  p v.x && p v.y && p v.z

/-- A predicate holds of the sixteen entries of a `mat4`. -/
def mat4.all (p : α → Bool) (m : mat4 α) : Bool :=
  m.c0.all p && m.c1.all p && m.c2.all p && m.c3.all p

/-- The float `f` is the integer `i`: it is `ofInt i`, or `-0` for `i = 0`. -/
def float.isInt (i : Int) (f : float) : Prop :=
  f = float.ofInt i ∨ (i = 0 ∧ f = float.fin true 0 (-149))

/-- A function applied to the four components of a `vec4`. -/
def vec4.map {α β : Type} (f : α → β) (v : vec4 α) : vec4 β :=
  ⟨f v.x, f v.y, f v.z, f v.w⟩

/-- A function applied to the three components of a `vec3`. -/
def vec3.map {α β : Type} (f : α → β) (v : vec3 α) : vec3 β :=
  ⟨f v.x, f v.y, f v.z⟩

/-- A function applied to the sixteen entries of a `mat4`. -/
def mat4.map {α β : Type} (f : α → β) (m : mat4 α) : mat4 β :=
  ⟨m.c0.map f, m.c1.map f, m.c2.map f, m.c3.map f⟩

/-- A relation holds between the components of two `vec4`, one by one. -/
def vec4.Forall₂ {α β : Type} (r : α → β → Prop) (v : vec4 α) (w : vec4 β) : Prop :=
  r v.x w.x ∧ r v.y w.y ∧ r v.z w.z ∧ r v.w w.w

/-- A relation holds between the entries of two `mat4`, one by one. -/
def mat4.Forall₂ {α β : Type} (r : α → β → Prop) (m : mat4 α) (n : mat4 β) : Prop :=
  vec4.Forall₂ r m.c0 n.c0 ∧ vec4.Forall₂ r m.c1 n.c1 ∧ vec4.Forall₂ r m.c2 n.c2
    ∧ vec4.Forall₂ r m.c3 n.c3

/-- The float `f` is the integer `i`, of absolute value at most `B`. -/
def float.isIntLE (B : Nat) (i : Int) (f : float) : Prop :=
  i.natAbs ≤ B ∧ float.isInt i f

end GLSL

open GLSL

namespace vertex

variable {α : Type}

/-- The `main` of `src/vertex.c`.  The arguments are the uniforms and
attributes of the shader in the order it declares them; the result holds the
two values `main` assigns.

```
gl_Position = mat_p * mat_v * mat_m * vec4(position, 1.0);
v_color = color;
```
-/
def main [Add α] [Mul α] [One α] (zoom : α) (mat_m mat_v mat_p : mat4 α)
    (color : vec4 α) (position : vec3 α) : Outputs α :=
  let _ := zoom
  let gl_Position := mat_p * mat_v * mat_m * vec4.ofVec3 position 1
  let v_color := color
  ⟨gl_Position, v_color⟩

end vertex

namespace heightmap_vertex

variable {α : Type}

/-- The `main` of `src/shaders/heightmap-vertex.c`.

```
gl_Position = mat_p * mat_v * mat_m * vec4(position, 1.0);
float h = position.z;
vec4 blah = color; //
vec4 x = vec4(color.x, h, h, 1.0);
v_color = x;
```
-/
def main [Add α] [Mul α] [One α] (mat_m mat_v mat_p : mat4 α)
    (color : vec4 α) (position : vec3 α) : Outputs α :=
  let gl_Position := mat_p * mat_v * mat_m * vec4.ofVec3 position 1
  let h := position.z
  let blah := color
  let _ := blah
  let x : vec4 α := ⟨color.x, h, h, 1⟩
  let v_color := x
  ⟨gl_Position, v_color⟩

end heightmap_vertex

/-! ## The GLSL products and the products of linear algebra

Through `vec4.toFn` and `mat4.toMatrix` the GLSL products are the
matrix-vector product `Matrix.mulVec` and the matrix product of linear
algebra; in exact arithmetic they therefore associate. -/

namespace GLSL

variable {α : Type}

theorem vec4.toFn_injective : Function.Injective (vec4.toFn : vec4 α → Fin 4 → α) := by
  rintro ⟨a, b, c, d⟩ ⟨a', b', c', d'⟩ h
  have h0 := congrFun h 0
  have h1 := congrFun h 1
  have h2 := congrFun h 2
  have h3 := congrFun h 3
  simp only [vec4.toFn, Matrix.cons_val_zero, Matrix.cons_val_one, Matrix.head_cons,
    Matrix.cons_val_two, Matrix.tail_cons, Matrix.cons_val_three] at h0 h1 h2 h3
  subst h0 h1 h2 h3
  rfl

theorem mat4.hmul_def [Add α] [Mul α] (m : mat4 α) (v : vec4 α) :
    m * v = mat4.mulVec m v := rfl

theorem mat4.mul_def [Add α] [Mul α] (m n : mat4 α) :
    m * n = mat4.mul m n := rfl

/-- The GLSL product `m * v` is the matrix-vector product of linear algebra. -/
theorem mat4.toFn_mulVec [Semiring α] (m : mat4 α) (v : vec4 α) :
    (m * v).toFn = Matrix.mulVec m.toMatrix v.toFn := by
  rw [mat4.hmul_def]
  funext i
  fin_cases i <;>
    simp [mat4.mulVec, mat4.toMatrix, mat4.col, vec4.toFn, Matrix.mulVec,
      Matrix.dotProduct, Fin.sum_univ_four, add_assoc]

/-- The GLSL product `m * n` is the matrix product of linear algebra. -/
theorem mat4.toMatrix_mul [Semiring α] (m n : mat4 α) :
    (m * n).toMatrix = m.toMatrix * n.toMatrix := by
  rw [mat4.mul_def]
  ext i j
  fin_cases i <;> fin_cases j <;>
    simp [mat4.mul, mat4.mulVec, mat4.toMatrix, mat4.col, vec4.toFn,
      Matrix.mul_apply, Fin.sum_univ_four, add_assoc]

/-- In exact arithmetic the GLSL products associate:
`(m * n) * v = m * (n * v)`. -/
theorem mat4.mul_mulVec [Semiring α] (m n : mat4 α) (v : vec4 α) :
    (m * n) * v = m * (n * v) := by
  apply vec4.toFn_injective
  rw [mat4.toFn_mulVec, mat4.toMatrix_mul, mat4.toFn_mulVec, mat4.toFn_mulVec,
    Matrix.mulVec_mulVec]

/-- In exact arithmetic the GLSL matrix product is associative. -/
theorem mat4.mul_assoc [Semiring α] (m n k : mat4 α) :
    m * n * k = m * (n * k) := by
  have h : ∀ v : vec4 α, mat4.mulVec (mat4.mul m n) v = mat4.mulVec m (mat4.mulVec n v) :=
    fun v => mat4.mul_mulVec m n v
  show mat4.mul (mat4.mul m n) k = mat4.mul m (mat4.mul n k)
  unfold mat4.mul at h ⊢
  simp only [h]

end GLSL

/-! ## Unfolding the two shaders -/

section unfolding

variable {α : Type} [Add α] [Mul α] [One α]

/-- The value `vertex.main` assigns to `gl_Position`, with the products in the
order GLSL evaluates them: `*` associates to the left. -/
theorem vertex_main_gl_Position (zoom : α) (mat_m mat_v mat_p : mat4 α)
    (color : vec4 α) (position : vec3 α) :
    (vertex.main zoom mat_m mat_v mat_p color position).gl_Position
      = mat4.mulVec (mat4.mul (mat4.mul mat_p mat_v) mat_m) (vec4.ofVec3 position 1) := rfl

/-- The value `heightmap_vertex.main` assigns to `gl_Position`. -/
theorem heightmap_vertex_main_gl_Position (mat_m mat_v mat_p : mat4 α)
    (color : vec4 α) (position : vec3 α) :
    (heightmap_vertex.main mat_m mat_v mat_p color position).gl_Position
      = mat4.mulVec (mat4.mul (mat4.mul mat_p mat_v) mat_m) (vec4.ofVec3 position 1) := rfl

end unfolding

/-- The matrix `mat4.identity` is the identity matrix of linear algebra. -/
theorem GLSL.mat4.toMatrix_identity {α : Type} [Zero α] [One α] :
    (mat4.identity : mat4 α).toMatrix = 1 := by
  ext i j
  fin_cases i <;> fin_cases j <;>
    simp [mat4.identity, mat4.diag, mat4.toMatrix, mat4.col, vec4.toFn]

/-- In arithmetic where `1 * a = a`, `0 * a = 0` and `a + 0 = a = 0 + a`, the
identity matrix fixes every vector. -/
theorem GLSL.mat4.identity_mulVec {α : Type} [NonAssocSemiring α] (v : vec4 α) :
    mat4.mulVec mat4.identity v = v := by
  simp [mat4.identity, mat4.diag, mat4.mulVec]

/-- In such arithmetic the identity matrix is a left unit of the GLSL matrix
product. -/
theorem GLSL.mat4.identity_mul {α : Type} [NonAssocSemiring α] (m : mat4 α) :
    mat4.mul mat4.identity m = m := by
  simp [mat4.mul, mat4.identity_mulVec]

/-! ## The zero matrix and affine matrices -/

section zero_affine

variable {α : Type} [NonAssocSemiring α]

/-- The zero matrix sends every vector to the zero vector. -/
theorem GLSL.mat4.zero_mulVec (v : vec4 α) :
    mat4.mulVec mat4.zero v = ⟨0, 0, 0, 0⟩ := by
  simp [mat4.zero, mat4.mulVec]

/-- Every matrix sends the zero vector to the zero vector. -/
theorem GLSL.mat4.mulVec_zero (m : mat4 α) :
    mat4.mulVec m ⟨0, 0, 0, 0⟩ = ⟨0, 0, 0, 0⟩ := by
  simp [mat4.mulVec]

/-- The zero matrix absorbs the GLSL matrix product on the right. -/
theorem GLSL.mat4.mul_zero (m : mat4 α) : mat4.mul m mat4.zero = mat4.zero := by
  simp [mat4.mul, mat4.zero, mat4.mulVec_zero]

/-- The zero matrix absorbs the GLSL matrix product on the left. -/
theorem GLSL.mat4.zero_mul (m : mat4 α) : mat4.mul mat4.zero m = mat4.zero := by
  simp only [mat4.mul, mat4.zero_mulVec]
  rfl

/-- Where `0 ≠ 1`, the zero matrix is not the identity. -/
theorem GLSL.mat4.zero_ne_identity [Nontrivial α] :
    (mat4.zero : mat4 α) ≠ mat4.identity := by
  intro h
  have h0 : (mat4.zero : mat4 α).c0.x = (mat4.identity : mat4 α).c0.x := by rw [h]
  exact zero_ne_one h0

/-- An affine matrix keeps the `w` component of a vector. -/
theorem GLSL.mat4.IsAffine.mulVec_w {m : mat4 α} (hm : m.IsAffine) (v : vec4 α) :
    (mat4.mulVec m v).w = v.w := by
  obtain ⟨⟨_, _, _, a⟩, ⟨_, _, _, b⟩, ⟨_, _, _, c⟩, ⟨_, _, _, d⟩⟩ := m
  simp only [mat4.IsAffine, mat4.bottomRow, vec4.mk.injEq] at hm
  obtain ⟨rfl, rfl, rfl, rfl⟩ := hm
  simp [mat4.mulVec]

/-- The GLSL product of two affine matrices is affine. -/
theorem GLSL.mat4.IsAffine.mul {m n : mat4 α} (hm : m.IsAffine) (hn : n.IsAffine) :
    (mat4.mul m n).IsAffine := by
  have hn' := hn
  simp only [mat4.IsAffine, mat4.bottomRow, vec4.mk.injEq] at hn'
  obtain ⟨h0, h1, h2, h3⟩ := hn'
  simp only [mat4.IsAffine, mat4.bottomRow, mat4.mul, vec4.mk.injEq, hm.mulVec_w]
  exact ⟨h0, h1, h2, h3⟩

end zero_affine

/-! ## Arithmetic of binary32

The facts about `float` the claims need: the rounding `float.round` returns a
datum of the format unchanged, so `1 * a = a` and `a + 0 = a` for nonzero
`a`; a product with a zero and a sum of zeros are zeros. -/

namespace GLSL.float

theorem ilog2_spec : ∀ (fuel n : Nat), n ≤ fuel → n ≠ 0 →
    2 ^ ilog2 fuel n ≤ n ∧ n < 2 ^ (ilog2 fuel n + 1) := by
  intro fuel
  induction fuel with
  | zero => intro n h h0; omega
  | succ fuel ih =>
    intro n h h0
    unfold ilog2
    by_cases h2 : n < 2
    · simp only [h2, if_true]
      omega
    · simp only [h2, if_false]
      have := ih (n / 2) (by omega) (by omega)
      obtain ⟨h3, h4⟩ := this
      rw [pow_succ] at h4 ⊢
      constructor
      · omega
      · rw [pow_succ]; omega

theorem ilog2_eq {n k : Nat} (h1 : 2 ^ k ≤ n) (h2 : n < 2 ^ (k + 1)) : ilog2 n n = k := by
  have h0 : n ≠ 0 := by
    have : 0 < 2 ^ k := by positivity
    omega
  obtain ⟨h3, h4⟩ := ilog2_spec n n le_rfl h0
  have a : ilog2 n n < k + 1 := (Nat.pow_lt_pow_iff_right (by norm_num : 1 < 2)).1 (lt_of_le_of_lt h3 h2)
  have b : k < ilog2 n n + 1 := (Nat.pow_lt_pow_iff_right (by norm_num : 1 < 2)).1 (lt_of_le_of_lt h1 h4)
  omega


theorem roundHalfEven_mul_pow (m k : Nat) : roundHalfEven (m * 2 ^ k) (2 ^ k) = m := by
  have hp : 0 < 2 ^ k := by positivity
  simp [roundHalfEven, Nat.mul_div_cancel _ hp, hp]

theorem round_zero (n : Bool) (e : Int) : round n 0 e = fin n 0 (-149) := by
  simp [round]

theorem round_shift {n : Bool} {m : Nat} {e : Int} (hv : valid (fin n m e) = true)
    (hm : m ≠ 0) (k : Nat) : round n (m * 2 ^ k) (e - k) = fin n m e := by
  simp only [valid, decide_eq_true_eq] at hv
  obtain ⟨h24, hlo, hhi, hcase⟩ := hv
  have hp : 0 < 2 ^ k := by positivity
  have hmk : m * 2 ^ k ≠ 0 := Nat.mul_ne_zero hm hp.ne'
  have hub : m * 2 ^ k < 2 ^ (23 + k + 1) := by
    have : 2 ^ (23 + k + 1) = 2 ^ 24 * 2 ^ k := by rw [← pow_add]; congr 1; omega
    rw [this]
    exact Nat.mul_lt_mul_of_pos_right h24 hp
  have hq : max ((ilog2 (m * 2 ^ k) (m * 2 ^ k) : Int) + (e - k) - 23) (-149) = e := by
    rcases hcase with he | hn
    · obtain ⟨h3, _⟩ := ilog2_spec _ _ le_rfl hmk
      have hL : ilog2 (m * 2 ^ k) (m * 2 ^ k) < 23 + k + 1 :=
        (Nat.pow_lt_pow_iff_right (by norm_num : 1 < 2)).1 (lt_of_le_of_lt h3 hub)
      omega
    · have hlb : 2 ^ (23 + k) ≤ m * 2 ^ k := by
        rw [pow_add]
        exact Nat.mul_le_mul_right _ hn
      rw [ilog2_eq hlb hub]
      push_cast
      omega
  have hs : e - (k : Int) - e = -(k : Int) := by omega
  have hr : (if 0 ≤ -(k : Int) then m * 2 ^ k * 2 ^ (-(k : Int)).toNat
      else roundHalfEven (m * 2 ^ k) (2 ^ (- -(k : Int)).toNat)) = m := by
    by_cases hk : k = 0
    · subst hk; simp
    · have : ¬ (0 ≤ -(k : Int)) := by omega
      simp only [this, if_false, neg_neg, Int.toNat_ofNat]
      exact roundHalfEven_mul_pow m k
  have hne : m ≠ 2 ^ 24 := by omega
  have hle : ¬ (104 < e) := by omega
  simp only [round, hmk, if_false, hq, hs, hr, hne, hle]


theorem float_mul_def (a b : float) : a * b = mul a b := rfl

theorem float_add_def (a b : float) : a + b = add a b := rfl

theorem float_zero_def : (0 : float) = fin false 0 (-149) := rfl

theorem float_one_def : (1 : float) = fin false (2 ^ 23) (-23) := rfl

/-- A valid zero is `+0` or `-0` in its one encoding. -/
theorem valid_zero {n : Bool} {e : Int} (hv : valid (fin n 0 e) = true) : e = -149 := by
  simp only [valid, decide_eq_true_eq] at hv
  omega

theorem one_mul_valid {a : float} (hv : a.valid = true) : 1 * a = a := by
  cases a with
  | nan => rfl
  | inf n => simp [float_mul_def, float_one_def, mul]
  | fin n m e =>
    by_cases hm : m = 0
    · subst hm
      rw [valid_zero hv]
      simp [float_mul_def, float_one_def, mul, round_zero]
    · have := round_shift hv hm 23
      simp only [float_mul_def, float_one_def, mul, Bool.false_xor]
      rw [Nat.mul_comm, show (-23 : Int) + e = e - (23 : Nat) by push_cast; omega]
      exact this

theorem mul_one_valid {a : float} (hv : a.valid = true) : a * 1 = a := by
  cases a with
  | nan => rfl
  | inf n => simp [float_mul_def, float_one_def, mul]
  | fin n m e =>
    by_cases hm : m = 0
    · subst hm
      rw [valid_zero hv]
      simp [float_mul_def, float_one_def, mul, round_zero]
    · have := round_shift hv hm 23
      simp only [float_mul_def, float_one_def, mul, Bool.xor_false]
      rw [show e + (-23 : Int) = e - (23 : Nat) by push_cast; omega]
      exact this

theorem zero_mul_fin (s n : Bool) (m : Nat) (e e' : Int) :
    fin s 0 e' * fin n m e = fin (xor s n) 0 (-149) := by
  simp [float_mul_def, mul, round_zero]

theorem fin_mul_zero (s n : Bool) (m : Nat) (e e' : Int) :
    fin n m e * fin s 0 e' = fin (xor n s) 0 (-149) := by
  simp [float_mul_def, mul, round_zero]

theorem zero_add_zero (s t : Bool) (e e' : Int) :
    fin s 0 e + fin t 0 e' = fin (s && t) 0 (-149) := by
  simp [float_add_def, add]

theorem fin_add_zero {n : Bool} {m : Nat} {e : Int} (hv : valid (fin n m e) = true)
    (hm : m ≠ 0) (s : Bool) : fin n m e + fin s 0 (-149) = fin n m e := by
  have hv' := hv
  simp only [valid, decide_eq_true_eq] at hv'
  obtain ⟨k, hk⟩ : ∃ k : Nat, e = -149 + k := ⟨(e + 149).toNat, by omega⟩
  have hp : 0 < 2 ^ k := by positivity
  have hmk : m * 2 ^ k ≠ 0 := Nat.mul_ne_zero hm hp.ne'
  have hr := round_shift hv hm k
  have he : e - (k : Int) = -149 := by omega
  rw [he] at hr
  have hmin : min e (-149) = -149 := by omega
  have ht : (e + 149).toNat = k := by omega
  have hnn : ¬ ((m : Int) * 2 ^ k < 0) := by
    have : (0 : Int) ≤ (m : Int) * 2 ^ k := by positivity
    omega
  have hpos : (0 : Int) < (m : Int) * 2 ^ k := by
    have : (0 : Int) < (m : Int) := by omega
    positivity
  have hna : ((m : Int) * 2 ^ k).natAbs = m * 2 ^ k := by
    have := Int.natAbs_ofNat (m * 2 ^ k)
    push_cast at this
    exact this
  cases n
  · simp [float_add_def, add, hmin, ht, hm, hp.ne', hnn, hna]
    exact hr
  · simp [float_add_def, add, hmin, ht, hm, hp.ne', hna, Nat.pos_of_ne_zero hm]
    exact hr

theorem zero_add_fin {n : Bool} {m : Nat} {e : Int} (hv : valid (fin n m e) = true)
    (hm : m ≠ 0) (s : Bool) : fin s 0 (-149) + fin n m e = fin n m e := by
  have hv' := hv
  simp only [valid, decide_eq_true_eq] at hv'
  obtain ⟨k, hk⟩ : ∃ k : Nat, e = -149 + k := ⟨(e + 149).toNat, by omega⟩
  have hp : 0 < 2 ^ k := by positivity
  have hmk : m * 2 ^ k ≠ 0 := Nat.mul_ne_zero hm hp.ne'
  have hr := round_shift hv hm k
  have he : e - (k : Int) = -149 := by omega
  rw [he] at hr
  have hmin : min (-149) e = -149 := by omega
  have ht : (e + 149).toNat = k := by omega
  have hnn : ¬ ((m : Int) * 2 ^ k < 0) := by
    have : (0 : Int) ≤ (m : Int) * 2 ^ k := by positivity
    omega
  have hna : ((m : Int) * 2 ^ k).natAbs = m * 2 ^ k := by
    have := Int.natAbs_ofNat (m * 2 ^ k)
    push_cast at this
    exact this
  cases n
  · simp [float_add_def, add, hmin, ht, hm, hp.ne', hnn, hna]
    exact hr
  · simp [float_add_def, add, hmin, ht, hm, hp.ne', hna, Nat.pos_of_ne_zero hm]
    exact hr


theorem same_refl (a : float) : same a a := Or.inl rfl

theorem same_of_isZero {a b : float} (ha : a.isZero = true) (hb : b.isZero = true) :
    same a b := Or.inr ⟨ha, hb⟩

/-- Adding zeros before and after `x`, and `+0` to `t`, does not change the
number `x + t`. -/
theorem same_chain_x {x t : float} (hx : x.valid = true) (ht : t.valid = true)
    (hfx : x.isFinite = true) (hft : t.isFinite = true) (s u : Bool) :
    same (x + fin s 0 (-149) + fin u 0 (-149) + (t + fin false 0 (-149))) (x + t) := by
  cases x with
  | nan => simp [isFinite] at hfx
  | inf n => simp [isFinite] at hfx
  | fin nx mx ex =>
    cases t with
    | nan => simp [isFinite] at hft
    | inf n => simp [isFinite] at hft
    | fin nt mt et =>
      by_cases hmx : mx = 0 <;> by_cases hmt : mt = 0
      · subst hmx; subst hmt
        rw [valid_zero hx, valid_zero ht]
        simp only [zero_add_zero]
        exact same_of_isZero rfl rfl
      · subst hmx
        rw [valid_zero hx]
        simp only [zero_add_zero, fin_add_zero ht hmt, zero_add_fin ht hmt]
        exact same_refl _
      · subst hmt
        rw [valid_zero ht]
        simp only [zero_add_zero, fin_add_zero hx hmx]
        exact same_refl _
      · simp only [fin_add_zero hx hmx, fin_add_zero ht hmt]
        exact same_refl _

theorem same_chain_y {y t : float} (hy : y.valid = true) (ht : t.valid = true)
    (hfy : y.isFinite = true) (hft : t.isFinite = true) (s u : Bool) :
    same (fin s 0 (-149) + y + fin u 0 (-149) + (t + fin false 0 (-149))) (y + t) := by
  cases y with
  | nan => simp [isFinite] at hfy
  | inf n => simp [isFinite] at hfy
  | fin ny my ey =>
    cases t with
    | nan => simp [isFinite] at hft
    | inf n => simp [isFinite] at hft
    | fin nt mt et =>
      by_cases hmy : my = 0 <;> by_cases hmt : mt = 0
      · subst hmy; subst hmt
        rw [valid_zero hy, valid_zero ht]
        simp only [zero_add_zero]
        exact same_of_isZero rfl rfl
      · subst hmy
        rw [valid_zero hy]
        simp only [zero_add_zero, fin_add_zero ht hmt, zero_add_fin ht hmt]
        exact same_refl _
      · subst hmt
        rw [valid_zero ht]
        simp only [zero_add_zero, zero_add_fin hy hmy, fin_add_zero hy hmy]
        exact same_refl _
      · simp only [zero_add_fin hy hmy, fin_add_zero hy hmy, fin_add_zero ht hmt]
        exact same_refl _

theorem same_chain_z {z t : float} (hz : z.valid = true) (ht : t.valid = true)
    (hfz : z.isFinite = true) (hft : t.isFinite = true) (s u : Bool) :
    same (fin s 0 (-149) + fin u 0 (-149) + z + (t + fin false 0 (-149))) (z + t) := by
  cases z with
  | nan => simp [isFinite] at hfz
  | inf n => simp [isFinite] at hfz
  | fin nz mz ez =>
    cases t with
    | nan => simp [isFinite] at hft
    | inf n => simp [isFinite] at hft
    | fin nt mt et =>
      by_cases hmz : mz = 0 <;> by_cases hmt : mt = 0
      · subst hmz; subst hmt
        rw [valid_zero hz, valid_zero ht]
        simp only [zero_add_zero]
        exact same_of_isZero rfl rfl
      · subst hmz
        rw [valid_zero hz]
        simp only [zero_add_zero, fin_add_zero ht hmt, zero_add_fin ht hmt]
        exact same_refl _
      · subst hmt
        rw [valid_zero ht]
        simp only [zero_add_zero, zero_add_fin hz hmz, fin_add_zero hz hmz]
        exact same_refl _
      · simp only [zero_add_zero, zero_add_fin hz hmz, fin_add_zero ht hmt]
        exact same_refl _

/-- Zeros added to `1` leave `1`. -/
theorem chain_w (s t u : Bool) :
    fin s 0 (-149) + fin t 0 (-149) + fin u 0 (-149) + (1 : float) = 1 := by
  have hv : valid (fin false (2 ^ 23) (-23)) = true := by decide
  simp only [zero_add_zero, float_one_def]
  exact zero_add_fin hv (by norm_num) _


theorem valid_add_zero {t : float} (ht : t.valid = true) (hft : t.isFinite = true) :
    (t + fin false 0 (-149)).valid = true ∧ (t + fin false 0 (-149)).isFinite = true := by
  cases t with
  | nan => simp [isFinite] at hft
  | inf n => simp [isFinite] at hft
  | fin n m e =>
    by_cases hm : m = 0
    · subst hm
      rw [valid_zero ht, zero_add_zero, Bool.and_false]
      exact ⟨by decide, rfl⟩
    · rw [fin_add_zero ht hm]
      exact ⟨ht, hft⟩

/-- Zeros added after `a` leave `a + 0`. -/
theorem absorb_x {a : float} (ha : a.valid = true) (hfa : a.isFinite = true) (s u : Bool) :
    a + fin s 0 (-149) + fin u 0 (-149) + fin false 0 (-149) = a + fin false 0 (-149) := by
  cases a with
  | nan => simp [isFinite] at hfa
  | inf n => simp [isFinite] at hfa
  | fin n m e =>
    by_cases hm : m = 0
    · subst hm
      rw [valid_zero ha]
      simp only [zero_add_zero, Bool.and_false]
    · simp only [fin_add_zero ha hm]

theorem absorb_y {a : float} (ha : a.valid = true) (hfa : a.isFinite = true) (s u : Bool) :
    fin s 0 (-149) + a + fin u 0 (-149) + fin false 0 (-149) = a + fin false 0 (-149) := by
  cases a with
  | nan => simp [isFinite] at hfa
  | inf n => simp [isFinite] at hfa
  | fin n m e =>
    by_cases hm : m = 0
    · subst hm
      rw [valid_zero ha]
      simp only [zero_add_zero, Bool.and_false]
    · simp only [zero_add_fin ha hm, fin_add_zero ha hm]

theorem absorb_z {a : float} (ha : a.valid = true) (hfa : a.isFinite = true) (s u : Bool) :
    fin s 0 (-149) + fin u 0 (-149) + a + fin false 0 (-149) = a + fin false 0 (-149) := by
  cases a with
  | nan => simp [isFinite] at hfa
  | inf n => simp [isFinite] at hfa
  | fin n m e =>
    by_cases hm : m = 0
    · subst hm
      rw [valid_zero ha]
      simp only [zero_add_zero, Bool.and_false]
    · simp only [zero_add_zero, zero_add_fin ha hm, fin_add_zero ha hm]

/-- The product `0 * a` of `+0` and a finite `a` is a zero in its one
encoding. -/
theorem zero_mul_finite {a : float} (hfa : a.isFinite = true) :
    ∃ s, (0 : float) * a = fin s 0 (-149) := by
  cases a with
  | nan => simp [isFinite] at hfa
  | inf n => simp [isFinite] at hfa
  | fin n m e => exact ⟨_, zero_mul_fin _ _ _ _ _⟩

theorem valid_one : (1 : float).valid = true := by decide

theorem zero_mul_one : (0 : float) * 1 = fin false 0 (-149) := zero_mul_fin _ _ _ _ _

end GLSL.float

open GLSL float in
/-- In binary32 the identity matrix sends a finite `(a, b, c, 1)` to
`(a + 0, b + 0, c + 0, 1)`. -/
theorem GLSL.mat4.identity_mulVec_float {a b c : float}
    (ha : a.valid = true) (hb : b.valid = true) (hc : c.valid = true)
    (hfa : a.isFinite = true) (hfb : b.isFinite = true) (hfc : c.isFinite = true) :
    mat4.mulVec mat4.identity ⟨a, b, c, 1⟩ = (⟨a + 0, b + 0, c + 0, 1⟩ : vec4 float) := by
  obtain ⟨sa, hsa⟩ := zero_mul_finite hfa
  obtain ⟨sb, hsb⟩ := zero_mul_finite hfb
  obtain ⟨sc, hsc⟩ := zero_mul_finite hfc
  simp only [mat4.mulVec, mat4.identity, mat4.diag, one_mul_valid ha, one_mul_valid hb,
    one_mul_valid hc, one_mul_valid valid_one, hsa, hsb, hsc, zero_mul_one]
  rw [absorb_x ha hfa, absorb_y hb hfb, absorb_z hc hfc, chain_w]
  rfl

section float_position
open GLSL float

set_option maxRecDepth 100000 in
theorem GLSL.mat4.identity_mul_identity_float :
    mat4.mul (mat4.identity : mat4 float) mat4.identity = mat4.identity := by decide

set_option maxRecDepth 100000 in
theorem GLSL.mat4.identity_mulVec_basis_float :
    mat4.mulVec mat4.identity (⟨1, 0, 0, 0⟩ : vec4 float) = ⟨1, 0, 0, 0⟩
      ∧ mat4.mulVec mat4.identity (⟨0, 1, 0, 0⟩ : vec4 float) = ⟨0, 1, 0, 0⟩
      ∧ mat4.mulVec mat4.identity (⟨0, 0, 1, 0⟩ : vec4 float) = ⟨0, 0, 1, 0⟩ := by decide

/-- In binary32 the clip position under a translation, for finite data: the
three sums up to the sign of a zero, and `w = 1`. -/
theorem GLSL.float.translation_clip {tx ty tz x y z : float}
    (htx : tx.valid = true) (hty : ty.valid = true) (htz : tz.valid = true)
    (hx : x.valid = true) (hy : y.valid = true) (hz : z.valid = true)
    (hftx : tx.isFinite = true) (hfty : ty.isFinite = true) (hftz : tz.isFinite = true)
    (hfx : x.isFinite = true) (hfy : y.isFinite = true) (hfz : z.isFinite = true) :
    ∃ gx gy gz : float,
      mat4.mulVec (mat4.mul (mat4.mul mat4.identity mat4.identity) (mat4.translation tx ty tz))
          (vec4.ofVec3 ⟨x, y, z⟩ 1) = ⟨gx, gy, gz, 1⟩
        ∧ same gx (x + tx) ∧ same gy (y + ty) ∧ same gz (z + tz) := by
  obtain ⟨sx, hsx⟩ := zero_mul_finite hfx
  obtain ⟨sy, hsy⟩ := zero_mul_finite hfy
  obtain ⟨sz, hsz⟩ := zero_mul_finite hfz
  obtain ⟨hvx', hfx'⟩ := valid_add_zero htx hftx
  obtain ⟨hvy', hfy'⟩ := valid_add_zero hty hfty
  obtain ⟨hvz', hfz'⟩ := valid_add_zero htz hftz
  obtain ⟨b0, b1, b2⟩ := mat4.identity_mulVec_basis_float
  have hT : mat4.mul (mat4.mul mat4.identity mat4.identity) (mat4.translation tx ty tz)
      = (⟨⟨1, 0, 0, 0⟩, ⟨0, 1, 0, 0⟩, ⟨0, 0, 1, 0⟩, ⟨tx + 0, ty + 0, tz + 0, 1⟩⟩ : mat4 float) := by
    rw [mat4.identity_mul_identity_float]
    simp only [mat4.mul, mat4.translation, b0, b1, b2,
      mat4.identity_mulVec_float htx hty htz hftx hfty hftz]
  rw [hT]
  refine ⟨_, _, _, ?_, same_chain_x hx htx hfx hftx sy sz, same_chain_y hy hty hfy hfty sx sz,
    same_chain_z hz htz hfz hftz sx sy⟩
  simp only [mat4.mulVec, vec4.ofVec3, one_mul_valid hx, one_mul_valid hy, one_mul_valid hz,
    one_mul_valid valid_one, hsx, hsy, hsz, chain_w]
  rw [float_zero_def, mul_one_valid hvx', mul_one_valid hvy', mul_one_valid hvz']

end float_position

section float_zero
open GLSL float

theorem GLSL.float.isZero_mul_left {a b : float} (ha : a.isZero = true)
    (hb : b.isFinite = true) : (a * b).isZero = true := by
  cases a <;> cases b <;> simp_all [isZero, isFinite, float_mul_def, mul, round_zero]

theorem GLSL.float.isZero_mul_right {a b : float} (ha : a.isFinite = true)
    (hb : b.isZero = true) : (a * b).isZero = true := by
  cases a <;> cases b <;> simp_all [isZero, isFinite, float_mul_def, mul, round_zero]

theorem GLSL.float.isZero_add {a b : float} (ha : a.isZero = true) (hb : b.isZero = true) :
    (a + b).isZero = true := by
  cases a <;> cases b <;> simp_all [isZero, float_add_def, add]

theorem GLSL.float.isFinite_of_isZero {a : float} (ha : a.isZero = true) :
    a.isFinite = true := by
  cases a <;> simp_all [isZero, isFinite]

/-- In binary32 a matrix of finite entries sends a vector of zeros to a vector
of zeros. -/
theorem GLSL.mat4.mulVec_isZero_right {m : mat4 float} {v : vec4 float}
    (hm : m.all isFinite = true) (hv : v.all isZero = true) :
    (mat4.mulVec m v).all isZero = true := by
  simp only [mat4.all, vec4.all, Bool.and_eq_true] at hm hv ⊢
  obtain ⟨⟨⟨⟨⟨⟨h00, h01⟩, h02⟩, h03⟩, ⟨⟨h10, h11⟩, h12⟩, h13⟩, ⟨⟨h20, h21⟩, h22⟩, h23⟩,
    ⟨⟨h30, h31⟩, h32⟩, h33⟩ := hm
  obtain ⟨⟨⟨hx, hy⟩, hz⟩, hw⟩ := hv
  simp only [mat4.mulVec]
  refine ⟨⟨⟨?_, ?_⟩, ?_⟩, ?_⟩ <;>
    exact isZero_add (isZero_add (isZero_add (isZero_mul_right ‹_› hx)
      (isZero_mul_right ‹_› hy)) (isZero_mul_right ‹_› hz)) (isZero_mul_right ‹_› hw)

/-- In binary32 a matrix of zeros sends a vector of finite components to a
vector of zeros. -/
theorem GLSL.mat4.mulVec_isZero_left {m : mat4 float} {v : vec4 float}
    (hm : m.all isZero = true) (hv : v.all isFinite = true) :
    (mat4.mulVec m v).all isZero = true := by
  simp only [mat4.all, vec4.all, Bool.and_eq_true] at hm hv ⊢
  obtain ⟨⟨⟨⟨⟨⟨h00, h01⟩, h02⟩, h03⟩, ⟨⟨h10, h11⟩, h12⟩, h13⟩, ⟨⟨h20, h21⟩, h22⟩, h23⟩,
    ⟨⟨h30, h31⟩, h32⟩, h33⟩ := hm
  obtain ⟨⟨⟨hx, hy⟩, hz⟩, hw⟩ := hv
  simp only [mat4.mulVec]
  refine ⟨⟨⟨?_, ?_⟩, ?_⟩, ?_⟩
  · exact isZero_add (isZero_add (isZero_add (isZero_mul_left h00 hx)
      (isZero_mul_left h10 hy)) (isZero_mul_left h20 hz)) (isZero_mul_left h30 hw)
  · exact isZero_add (isZero_add (isZero_add (isZero_mul_left h01 hx)
      (isZero_mul_left h11 hy)) (isZero_mul_left h21 hz)) (isZero_mul_left h31 hw)
  · exact isZero_add (isZero_add (isZero_add (isZero_mul_left h02 hx)
      (isZero_mul_left h12 hy)) (isZero_mul_left h22 hz)) (isZero_mul_left h32 hw)
  · exact isZero_add (isZero_add (isZero_add (isZero_mul_left h03 hx)
      (isZero_mul_left h13 hy)) (isZero_mul_left h23 hz)) (isZero_mul_left h33 hw)

/-- In binary32, when the product `P * V` has not overflowed and the position
is finite, the all-zero model matrix gives a clip position of zeros. -/
theorem GLSL.float.zero_model_clip {P V : mat4 float} {position : vec3 float}
    (hPV : (mat4.mul P V).all isFinite = true) (hpos : position.all isFinite = true) :
    (mat4.mulVec (mat4.mul (mat4.mul P V) mat4.zero) (vec4.ofVec3 position 1)).all isZero
      = true := by
  have hz : (⟨0, 0, 0, 0⟩ : vec4 float).all isZero = true := by decide
  have hcol := mat4.mulVec_isZero_right hPV hz
  have hQ : (mat4.mul (mat4.mul P V) mat4.zero).all isZero = true := by
    simp only [mat4.mul, mat4.zero, mat4.all, Bool.and_eq_true]
    exact ⟨⟨⟨hcol, hcol⟩, hcol⟩, hcol⟩
  apply mat4.mulVec_isZero_left hQ
  simp only [vec3.all, Bool.and_eq_true] at hpos
  simp only [vec4.all, vec4.ofVec3, Bool.and_eq_true]
  exact ⟨⟨⟨hpos.1.1, hpos.1.2⟩, hpos.2⟩, by decide⟩

end float_zero

/-! ## Small integers in binary32

An integer of absolute value below `2 ^ 24` is a float, and sums and products
of such floats whose exact result is again below `2 ^ 24` do not round.  On
matrices and positions of small integers the shaders therefore compute the
exact integer clip position, in every parenthesisation. -/

namespace GLSL.float

theorem round_shift_up {n : Bool} {M k : Nat} {e : Int}
    (hv : valid (fin n (M * 2 ^ k) e) = true) (hM : M ≠ 0) :
    round n M (e + k) = fin n (M * 2 ^ k) e := by
  simp only [valid, decide_eq_true_eq] at hv
  obtain ⟨h24, hlo, hhi, hcase⟩ := hv
  have hp : 0 < 2 ^ k := by positivity
  obtain ⟨h3, h4⟩ := ilog2_spec M M le_rfl hM
  have hLk : ilog2 M M + k < 24 := by
    have h5 : 2 ^ (ilog2 M M + k) ≤ M * 2 ^ k := by
      rw [pow_add]
      exact Nat.mul_le_mul_right _ h3
    exact (Nat.pow_lt_pow_iff_right (by norm_num : 1 < 2)).1 (lt_of_le_of_lt h5 h24)
  have hq : max ((ilog2 M M : Int) + (e + k) - 23) (-149) = e := by
    rcases hcase with he | hn
    · omega
    · have h6 : M * 2 ^ k < 2 ^ (ilog2 M M + 1 + k) := by
        rw [pow_add]
        exact Nat.mul_lt_mul_of_pos_right h4 hp
      have h7 : 23 < ilog2 M M + 1 + k :=
        (Nat.pow_lt_pow_iff_right (by norm_num : 1 < 2)).1 (lt_of_le_of_lt hn h6)
      omega
  have hs : e + (k : Int) - e = (k : Int) := by omega
  have hne : M * 2 ^ k ≠ 2 ^ 24 := by omega
  have hle : ¬ (104 < e) := by omega
  simp only [round, hM, if_false, hq, hs, Int.toNat_ofNat, Int.ofNat_nonneg, if_true, hne, hle]

/-- A nonzero natural number below `2 ^ 24` is a float: rounding returns it,
in its normal encoding. -/
theorem round_nat {n : Bool} {N : Nat} (h0 : N ≠ 0) (h24 : N < 2 ^ 24) :
    ∃ k : Nat, round n N 0 = fin n (N * 2 ^ k) (-(k : Int))
      ∧ valid (fin n (N * 2 ^ k) (-(k : Int))) = true := by
  obtain ⟨h3, h4⟩ := ilog2_spec N N le_rfl h0
  have hL : ilog2 N N < 24 :=
    (Nat.pow_lt_pow_iff_right (by norm_num : 1 < 2)).1 (lt_of_le_of_lt h3 h24)
  obtain ⟨k, hk⟩ : ∃ k : Nat, ilog2 N N + k = 23 := ⟨23 - ilog2 N N, by omega⟩
  have hlb : 2 ^ 23 ≤ N * 2 ^ k := by
    rw [← hk, pow_add]
    exact Nat.mul_le_mul_right _ h3
  have hub : N * 2 ^ k < 2 ^ 24 := by
    have : (2 : Nat) ^ 24 = 2 ^ (ilog2 N N + 1) * 2 ^ k := by
      rw [← pow_add]; congr 1; omega
    rw [this]
    exact Nat.mul_lt_mul_of_pos_right h4 (by positivity)
  have hv : valid (fin n (N * 2 ^ k) (-(k : Int))) = true := by
    simp only [valid, decide_eq_true_eq]
    omega
  refine ⟨k, ?_, hv⟩
  have := round_shift_up hv h0
  rwa [show -(k : Int) + k = 0 by omega] at this

/-- Rounding does not depend on how an exactly representable natural number
is scaled. -/
theorem round_scaled {n : Bool} {N : Nat} (h0 : N ≠ 0) (h24 : N < 2 ^ 24) (t : Nat) :
    round n (N * 2 ^ t) (-(t : Int)) = round n N 0 := by
  obtain ⟨k, hk, hv⟩ := @round_nat n N h0 h24
  rw [hk]
  have hm : N * 2 ^ k ≠ 0 := Nat.mul_ne_zero h0 (by positivity)
  by_cases h : k ≤ t
  · obtain ⟨d, rfl⟩ : ∃ d, t = k + d := ⟨t - k, by omega⟩
    have := round_shift hv hm d
    rw [show N * 2 ^ (k + d) = N * 2 ^ k * 2 ^ d by rw [pow_add, Nat.mul_assoc],
      show -((k + d : Nat) : Int) = -(k : Int) - d by push_cast; omega]
    exact this
  · obtain ⟨d, rfl⟩ : ∃ d, k = t + d := ⟨k - t, by omega⟩
    have hv' : valid (fin n (N * 2 ^ t * 2 ^ d) (-((t + d : Nat) : Int))) = true := by
      rw [Nat.mul_assoc, ← pow_add]; exact hv
    have := round_shift_up hv' (Nat.mul_ne_zero h0 (by positivity))
    rw [show -((t + d : Nat) : Int) + d = -(t : Int) by push_cast; omega] at this
    rw [this, Nat.mul_assoc, ← pow_add]


/-- An integer of absolute value below `2 ^ 24` is a float: `ofInt i` is the
magnitude `|i|`, scaled, with the sign of `i`. -/
theorem ofInt_rep {i : Int} (h : i.natAbs < 2 ^ 24) :
    ∃ k : Nat, ofInt i = fin (decide (i < 0)) (i.natAbs * 2 ^ k) (-(k : Int))
      ∧ valid (fin (decide (i < 0)) (i.natAbs * 2 ^ k) (-(k : Int))) = true := by
  by_cases h0 : i.natAbs = 0
  · refine ⟨149, ?_, ?_⟩
    · simp [ofInt, h0, round_zero]
    · simp [valid, h0]
  · exact @round_nat (decide (i < 0)) i.natAbs h0 h

theorem valid_ofInt {i : Int} (h : i.natAbs < 2 ^ 24) :
    (ofInt i).valid = true ∧ (ofInt i).isFinite = true := by
  obtain ⟨k, hk, hv⟩ := ofInt_rep h
  rw [hk]
  exact ⟨hv, rfl⟩

theorem isZero_ofInt_zero : (ofInt 0).isZero = true := by decide


theorem signed_natAbs (i : Int) :
    (if decide (i < 0) = true then (-1 : Int) else 1) * (i.natAbs : Int) = i := by
  by_cases h : i < 0
  · simp only [h, decide_True, if_true]
    rw [Int.ofNat_natAbs_of_nonpos h.le]; ring
  · simp only [h, decide_False, Bool.false_eq_true, if_false]
    rw [Int.natAbs_of_nonneg (not_lt.1 h)]; ring


theorem ofInt_zero : ofInt 0 = fin false 0 (-149) := by decide

theorem isInt_zero (b : Bool) : isInt 0 (fin b 0 (-149)) := by
  cases b
  · exact Or.inl ofInt_zero.symm
  · exact Or.inr ⟨rfl, rfl⟩

theorem isInt_ofInt (i : Int) : isInt i (ofInt i) := Or.inl rfl

theorem isInt_one : isInt 1 (1 : float) := Or.inl (by decide)

/-- A float that is a small integer is finite, and a datum of the format. -/
theorem isInt_valid {i : Int} {f : float} (h : isInt i f) (hi : i.natAbs < 2 ^ 24) :
    f.valid = true ∧ f.isFinite = true := by
  rcases h with rfl | ⟨-, rfl⟩
  · exact valid_ofInt hi
  · exact ⟨by decide, rfl⟩

/-- A float that is the integer `i` is the same number as `ofInt i`. -/
theorem isInt_same {i : Int} {f : float} (h : isInt i f) : same f (ofInt i) := by
  rcases h with rfl | ⟨rfl, rfl⟩
  · exact same_refl _
  · exact same_of_isZero rfl isZero_ofInt_zero

theorem same_symm {a b : float} (h : same a b) : same b a := by
  rcases h with h | ⟨h1, h2⟩
  · exact Or.inl h.symm
  · exact Or.inr ⟨h2, h1⟩

theorem same_trans {a b c : float} (h : same a b) (h' : same b c) : same a c := by
  rcases h with rfl | ⟨h1, h2⟩
  · exact h'
  · rcases h' with rfl | ⟨h3, h4⟩
    · exact Or.inr ⟨h1, h2⟩
    · exact Or.inr ⟨h1, h4⟩

/-- Two floats that are the same integer are the same number. -/
theorem isInt_same_of {i : Int} {f g : float} (hf : isInt i f) (hg : isInt i g) :
    float.same f g := same_trans (isInt_same hf) (same_symm (isInt_same hg))

theorem isInt_mul_ofInt {i j : Int} (hi : i.natAbs < 2 ^ 24) (hj : j.natAbs < 2 ^ 24)
    (hij : (i * j).natAbs < 2 ^ 24) : isInt (i * j) (ofInt i * ofInt j) := by
  obtain ⟨ki, hki, -⟩ := ofInt_rep hi
  obtain ⟨kj, hkj, -⟩ := ofInt_rep hj
  rw [hki, hkj]
  by_cases h0 : i * j = 0
  · rw [h0]
    rcases mul_eq_zero.1 h0 with h | h <;> subst h <;>
      simp only [float_mul_def, mul, Int.natAbs_zero, Nat.zero_mul, Nat.mul_zero, round_zero] <;>
      exact isInt_zero _
  · left
    have hi0 : i ≠ 0 := fun h => h0 (by rw [h, zero_mul])
    have hj0 : j ≠ 0 := fun h => h0 (by rw [h, mul_zero])
    have hN0 : (i * j).natAbs ≠ 0 := by simpa using h0
    have hs : xor (decide (i < 0)) (decide (j < 0)) = decide (i * j < 0) := by
      rcases lt_or_gt_of_ne hi0 with a | a <;> rcases lt_or_gt_of_ne hj0 with b | b
      · have := mul_pos_of_neg_of_neg a b
        simp [a, b, not_lt.2 this.le]
      · have := mul_neg_of_neg_of_pos a b
        simp [a, this, not_lt.2 b.le]
      · have := mul_neg_of_pos_of_neg a b
        simp [b, this, not_lt.2 a.le]
      · have := mul_pos a b
        simp [not_lt.2 a.le, not_lt.2 b.le, not_lt.2 this.le]
    have hm : i.natAbs * 2 ^ ki * (j.natAbs * 2 ^ kj) = (i * j).natAbs * 2 ^ (ki + kj) := by
      rw [Int.natAbs_mul, pow_add]; ring
    have he : -(ki : Int) + -(kj : Int) = -((ki + kj : Nat) : Int) := by push_cast; omega
    simp only [float_mul_def, mul, hs, hm, he]
    rw [round_scaled hN0 hij]
    rfl

theorem isInt_add_ofInt {i j : Int} (hi : i.natAbs < 2 ^ 24) (hj : j.natAbs < 2 ^ 24)
    (hij : (i + j).natAbs < 2 ^ 24) : isInt (i + j) (ofInt i + ofInt j) := by
  obtain ⟨ki, hki, -⟩ := ofInt_rep hi
  obtain ⟨kj, hkj, -⟩ := ofInt_rep hj
  rw [hki, hkj]
  obtain ⟨t, ht⟩ : ∃ t : Nat, t = max ki kj := ⟨_, rfl⟩
  have hmin : min (-(ki : Int)) (-(kj : Int)) = -(t : Int) := by omega
  have h1 : (-(ki : Int) - -(t : Int)).toNat = t - ki := by omega
  have h2 : (-(kj : Int) - -(t : Int)).toNat = t - kj := by omega
  have ha : (if decide (i < 0) = true then (-1 : Int) else 1)
      * ((i.natAbs * 2 ^ ki * 2 ^ (t - ki) : Nat) : Int) = i * 2 ^ t := by
    rw [Nat.mul_assoc, ← pow_add, show ki + (t - ki) = t by omega, Nat.cast_mul, ← mul_assoc,
      signed_natAbs]
    norm_cast
  have hb : (if decide (j < 0) = true then (-1 : Int) else 1)
      * ((j.natAbs * 2 ^ kj * 2 ^ (t - kj) : Nat) : Int) = j * 2 ^ t := by
    rw [Nat.mul_assoc, ← pow_add, show kj + (t - kj) = t by omega, Nat.cast_mul, ← mul_assoc,
      signed_natAbs]
    norm_cast
  have hp : (0 : Int) < 2 ^ t := by positivity
  have hsum : i * 2 ^ t + j * 2 ^ t = (i + j) * 2 ^ t := by ring
  simp only [float_add_def, add, hmin, h1, h2, ha, hb, hsum]
  by_cases h0 : i + j = 0
  · rw [h0]
    simp only [zero_mul, if_true]
    exact isInt_zero _
  · left
    have hne : (i + j) * 2 ^ t ≠ 0 := mul_ne_zero h0 hp.ne'
    have hN0 : (i + j).natAbs ≠ 0 := by simpa using h0
    have hsgn : decide ((i + j) * 2 ^ t < 0) = decide (i + j < 0) := by
      by_cases h : i + j < 0
      · simp [h, mul_neg_of_neg_of_pos h hp]
      · simp [h, not_lt.2 (mul_nonneg (not_lt.1 h) hp.le)]
    have habs : ((i + j) * 2 ^ t).natAbs = (i + j).natAbs * 2 ^ t := by
      rw [Int.natAbs_mul, Int.natAbs_pow]; rfl
    simp only [hne, if_false, hsgn, habs]
    rw [round_scaled hN0 hij]
    rfl


/-- Products of floats that are small integers are exact. -/
theorem isInt_mul {i j : Int} {f g : float} (hf : isInt i f) (hg : isInt j g)
    (hi : i.natAbs < 2 ^ 24) (hj : j.natAbs < 2 ^ 24) (hij : (i * j).natAbs < 2 ^ 24) :
    isInt (i * j) (f * g) := by
  rcases hf with rfl | ⟨rfl, rfl⟩
  · rcases hg with rfl | ⟨rfl, rfl⟩
    · exact isInt_mul_ofInt hi hj hij
    · obtain ⟨k, hk, -⟩ := ofInt_rep hi
      rw [hk, mul_zero, fin_mul_zero]
      exact isInt_zero _
  · obtain ⟨hv, hfin⟩ := isInt_valid hg hj
    rw [zero_mul]
    cases g with
    | nan => simp [isFinite] at hfin
    | inf n => simp [isFinite] at hfin
    | fin n m e =>
      rw [zero_mul_fin]
      exact isInt_zero _

/-- Sums of floats that are small integers are exact. -/
theorem isInt_add {i j : Int} {f g : float} (hf : isInt i f) (hg : isInt j g)
    (hi : i.natAbs < 2 ^ 24) (hj : j.natAbs < 2 ^ 24) (hij : (i + j).natAbs < 2 ^ 24) :
    isInt (i + j) (f + g) := by
  rcases hf with rfl | ⟨rfl, rfl⟩
  · rcases hg with rfl | ⟨rfl, rfl⟩
    · exact isInt_add_ofInt hi hj hij
    · obtain ⟨k, hk, hv⟩ := ofInt_rep hi
      rw [add_zero, hk]
      by_cases h0 : i.natAbs * 2 ^ k = 0
      · have hi0 : i = 0 := by
          rcases Nat.mul_eq_zero.1 h0 with h | h
          · exact Int.natAbs_eq_zero.1 h
          · exact absurd h (by positivity)
        subst hi0
        have hk' := hk
        rw [ofInt_zero] at hk'
        rw [← hk', zero_add_zero]
        exact isInt_zero _
      · rw [fin_add_zero hv h0, ← hk]
        exact isInt_ofInt i
  · rw [zero_add]
    rcases hg with rfl | ⟨rfl, rfl⟩
    · obtain ⟨k, hk, hv⟩ := ofInt_rep hj
      rw [hk]
      by_cases h0 : j.natAbs * 2 ^ k = 0
      · have hj0 : j = 0 := by
          rcases Nat.mul_eq_zero.1 h0 with h | h
          · exact Int.natAbs_eq_zero.1 h
          · exact absurd h (by positivity)
        subst hj0
        have hk' := hk
        rw [ofInt_zero] at hk'
        rw [← hk', zero_add_zero]
        exact isInt_zero _
      · rw [zero_add_fin hv h0, ← hk]
        exact isInt_ofInt j
    · rw [zero_add_zero]
      exact isInt_zero _

/-- The float `f` is the integer `i`, of absolute value at most `B`. -/
theorem isInt_bound_mul {A B : Nat} {i j : Int} {f g : float}
    (hf : i.natAbs ≤ A ∧ isInt i f) (hg : j.natAbs ≤ B ∧ isInt j g)
    (hA : A < 2 ^ 24) (hB : B < 2 ^ 24) (hAB : A * B < 2 ^ 24) :
    (i * j).natAbs ≤ A * B ∧ isInt (i * j) (f * g) := by
  have h : (i * j).natAbs ≤ A * B := by
    rw [Int.natAbs_mul]
    exact Nat.mul_le_mul hf.1 hg.1
  exact ⟨h, isInt_mul hf.2 hg.2 (by omega) (by omega) (by omega)⟩

theorem isInt_bound_add {A B : Nat} {i j : Int} {f g : float}
    (hf : i.natAbs ≤ A ∧ isInt i f) (hg : j.natAbs ≤ B ∧ isInt j g)
    (hAB : A + B < 2 ^ 24) :
    (i + j).natAbs ≤ A + B ∧ isInt (i + j) (f + g) := by
  have h : (i + j).natAbs ≤ A + B := by omega
  exact ⟨h, isInt_add hf.2 hg.2 (by omega) (by omega) (by omega)⟩

end GLSL.float

section float_integers
open GLSL float

theorem GLSL.float.isIntLE_mul {A B : Nat} {i j : Int} {f g : float}
    (hf : isIntLE A i f) (hg : isIntLE B j g)
    (hA : A < 2 ^ 24) (hB : B < 2 ^ 24) (hAB : A * B < 2 ^ 24) :
    isIntLE (A * B) (i * j) (f * g) :=
  isInt_bound_mul hf hg hA hB hAB

theorem GLSL.float.isIntLE_add {A B : Nat} {i j : Int} {f g : float}
    (hf : isIntLE A i f) (hg : isIntLE B j g) (hAB : A + B < 2 ^ 24) :
    isIntLE (A + B) (i + j) (f + g) :=
  isInt_bound_add hf hg hAB

theorem GLSL.float.isIntLE_mono {A B : Nat} {i : Int} {f : float}
    (hf : isIntLE A i f) (h : A ≤ B) : isIntLE B i f :=
  ⟨le_trans hf.1 h, hf.2⟩

/-- In binary32 the product of a matrix and a vector of small integers is the
product of integers: no operation rounds. -/
theorem GLSL.mat4.mulVec_isIntLE {A B : Nat} {m : mat4 Int} {m' : mat4 float}
    {v : vec4 Int} {v' : vec4 float} (hm : mat4.Forall₂ (isIntLE A) m m')
    (hv : vec4.Forall₂ (isIntLE B) v v') (hA : A < 2 ^ 24) (hB : B < 2 ^ 24)
    (hAB : 4 * (A * B) < 2 ^ 24) :
    vec4.Forall₂ (isIntLE (4 * (A * B))) (mat4.mulVec m v) (mat4.mulVec m' v') := by
  obtain ⟨⟨h00, h01, h02, h03⟩, ⟨h10, h11, h12, h13⟩, ⟨h20, h21, h22, h23⟩,
    ⟨h30, h31, h32, h33⟩⟩ := hm
  obtain ⟨hx, hy, hz, hw⟩ := hv
  have hAB1 : A * B < 2 ^ 24 := by omega
  have key : ∀ {a0 a1 a2 a3 : Int} {f0 f1 f2 f3 : float}, isIntLE A a0 f0 → isIntLE A a1 f1 →
      isIntLE A a2 f2 → isIntLE A a3 f3 →
      isIntLE (4 * (A * B)) (a0 * v.x + a1 * v.y + a2 * v.z + a3 * v.w)
        (f0 * v'.x + f1 * v'.y + f2 * v'.z + f3 * v'.w) := by
    intro a0 a1 a2 a3 f0 f1 f2 f3 k0 k1 k2 k3
    have p0 := isIntLE_mul k0 hx hA hB hAB1
    have p1 := isIntLE_mul k1 hy hA hB hAB1
    have p2 := isIntLE_mul k2 hz hA hB hAB1
    have p3 := isIntLE_mul k3 hw hA hB hAB1
    exact isIntLE_mono (isIntLE_add (isIntLE_add (isIntLE_add p0 p1 (by omega)) p2 (by omega))
      p3 (by omega)) (by omega)
  exact ⟨key h00 h10 h20 h30, key h01 h11 h21 h31, key h02 h12 h22 h32, key h03 h13 h23 h33⟩

/-- In binary32 the product of two matrices of small integers is the product
of integers. -/
theorem GLSL.mat4.mul_isIntLE {A B : Nat} {m n : mat4 Int} {m' n' : mat4 float}
    (hm : mat4.Forall₂ (isIntLE A) m m') (hn : mat4.Forall₂ (isIntLE B) n n')
    (hA : A < 2 ^ 24) (hB : B < 2 ^ 24) (hAB : 4 * (A * B) < 2 ^ 24) :
    mat4.Forall₂ (isIntLE (4 * (A * B))) (mat4.mul m n) (mat4.mul m' n') :=
  ⟨mat4.mulVec_isIntLE hm hn.1 hA hB hAB, mat4.mulVec_isIntLE hm hn.2.1 hA hB hAB,
    mat4.mulVec_isIntLE hm hn.2.2.1 hA hB hAB, mat4.mulVec_isIntLE hm hn.2.2.2 hA hB hAB⟩

theorem GLSL.vec4.map_ofInt_isIntLE {B : Nat} {v : vec4 Int}
    (h : v.all (fun i => decide (i.natAbs ≤ B)) = true) :
    vec4.Forall₂ (isIntLE B) v (v.map ofInt) := by
  simp only [vec4.all, Bool.and_eq_true, decide_eq_true_eq] at h
  exact ⟨⟨h.1.1.1, isInt_ofInt _⟩, ⟨h.1.1.2, isInt_ofInt _⟩, ⟨h.1.2, isInt_ofInt _⟩,
    ⟨h.2, isInt_ofInt _⟩⟩

theorem GLSL.mat4.map_ofInt_entries_isIntLE {B : Nat} {m : mat4 Int}
    (h : m.all (fun i => decide (i.natAbs ≤ B)) = true) :
    mat4.Forall₂ (isIntLE B) m (m.map ofInt) := by
  simp only [mat4.all, Bool.and_eq_true] at h
  exact ⟨vec4.map_ofInt_isIntLE h.1.1.1, vec4.map_ofInt_isIntLE h.1.1.2,
    vec4.map_ofInt_isIntLE h.1.2, vec4.map_ofInt_isIntLE h.2⟩

theorem GLSL.vec4.ofVec3_isIntLE {p : vec3 Int}
    (h : p.all (fun i => decide (i.natAbs ≤ 22)) = true) :
    vec4.Forall₂ (isIntLE 22) (vec4.ofVec3 p 1) (vec4.ofVec3 (p.map ofInt) 1) := by
  simp only [vec3.all, Bool.and_eq_true, decide_eq_true_eq] at h
  exact ⟨⟨h.1.1, isInt_ofInt _⟩, ⟨h.1.2, isInt_ofInt _⟩, ⟨h.2, isInt_ofInt _⟩,
    ⟨(by decide : (1 : Int).natAbs ≤ 22), isInt_one⟩⟩


theorem GLSL.vec4.forall₂_imp {α β : Type} {r s : α → β → Prop} {v : vec4 α} {w : vec4 β}
    (h : vec4.Forall₂ r v w) (hrs : ∀ a b, r a b → s a b) : vec4.Forall₂ s v w :=
  ⟨hrs _ _ h.1, hrs _ _ h.2.1, hrs _ _ h.2.2.1, hrs _ _ h.2.2.2⟩

theorem GLSL.vec4.isInt_of_isIntLE {B : Nat} {v : vec4 Int} {w : vec4 float}
    (h : vec4.Forall₂ (isIntLE B) v w) : vec4.Forall₂ isInt v w :=
  vec4.forall₂_imp h fun _ _ h => h.2

/-- Two vectors of floats that are the same vector of integers are the same
numbers, component by component. -/
theorem GLSL.vec4.same_of_isInt {v : vec4 Int} {f g : vec4 float}
    (hf : vec4.Forall₂ isInt v f) (hg : vec4.Forall₂ isInt v g) :
    vec4.Forall₂ float.same f g :=
  ⟨isInt_same_of hf.1 hg.1, isInt_same_of hf.2.1 hg.2.1, isInt_same_of hf.2.2.1 hg.2.2.1,
    isInt_same_of hf.2.2.2 hg.2.2.2⟩

/-- In binary32, on matrices and a position of integers of absolute value at
most `22`, no operation of any parenthesisation of `P·V·M·v` rounds: each
gives the exact integer vector `P·(V·(M·v))`, up to the sign of a zero. -/
theorem GLSL.float.small_integer_products {M V P : mat4 Int} {p : vec3 Int}
    (hM : M.all (fun i => decide (i.natAbs ≤ 22)) = true)
    (hV : V.all (fun i => decide (i.natAbs ≤ 22)) = true)
    (hP : P.all (fun i => decide (i.natAbs ≤ 22)) = true)
    (hp : p.all (fun i => decide (i.natAbs ≤ 22)) = true) :
    vec4.Forall₂ isInt (P * (V * (M * vec4.ofVec3 p 1)))
        (((P.map ofInt * V.map ofInt) * M.map ofInt) * vec4.ofVec3 (p.map ofInt) 1)
      ∧ vec4.Forall₂ isInt (P * (V * (M * vec4.ofVec3 p 1)))
        ((P.map ofInt * (V.map ofInt * M.map ofInt)) * vec4.ofVec3 (p.map ofInt) 1)
      ∧ vec4.Forall₂ isInt (P * (V * (M * vec4.ofVec3 p 1)))
        ((P.map ofInt * V.map ofInt) * (M.map ofInt * vec4.ofVec3 (p.map ofInt) 1))
      ∧ vec4.Forall₂ isInt (P * (V * (M * vec4.ofVec3 p 1)))
        (P.map ofInt * ((V.map ofInt * M.map ofInt) * vec4.ofVec3 (p.map ofInt) 1))
      ∧ vec4.Forall₂ isInt (P * (V * (M * vec4.ofVec3 p 1)))
        (P.map ofInt * (V.map ofInt * (M.map ofInt * vec4.ofVec3 (p.map ofInt) 1))) := by
  have rM := mat4.map_ofInt_entries_isIntLE hM
  have rV := mat4.map_ofInt_entries_isIntLE hV
  have rP := mat4.map_ofInt_entries_isIntLE hP
  have rv := vec4.ofVec3_isIntLE hp
  have rPV := mat4.mul_isIntLE rP rV (by norm_num) (by norm_num) (by norm_num)
  have rVM := mat4.mul_isIntLE rV rM (by norm_num) (by norm_num) (by norm_num)
  have rMv := mat4.mulVec_isIntLE rM rv (by norm_num) (by norm_num) (by norm_num)
  have rPVM := mat4.mul_isIntLE rPV rM (by norm_num) (by norm_num) (by norm_num)
  have rPVM' := mat4.mul_isIntLE rP rVM (by norm_num) (by norm_num) (by norm_num)
  have rVMv := mat4.mulVec_isIntLE rVM rv (by norm_num) (by norm_num) (by norm_num)
  have rVMv' := mat4.mulVec_isIntLE rV rMv (by norm_num) (by norm_num) (by norm_num)
  have r1 := mat4.mulVec_isIntLE rPVM rv (by norm_num) (by norm_num) (by norm_num)
  have r2 := mat4.mulVec_isIntLE rPVM' rv (by norm_num) (by norm_num) (by norm_num)
  have r3 := mat4.mulVec_isIntLE rPV rMv (by norm_num) (by norm_num) (by norm_num)
  have r4 := mat4.mulVec_isIntLE rP rVMv (by norm_num) (by norm_num) (by norm_num)
  have r5 := mat4.mulVec_isIntLE rP rVMv' (by norm_num) (by norm_num) (by norm_num)
  have e1 : mat4.mulVec (mat4.mul (mat4.mul P V) M) (vec4.ofVec3 p 1)
      = P * (V * (M * vec4.ofVec3 p 1)) := by
    show P * V * M * vec4.ofVec3 p 1 = _
    rw [mat4.mul_mulVec, mat4.mul_mulVec]
  have e2 : mat4.mulVec (mat4.mul P (mat4.mul V M)) (vec4.ofVec3 p 1)
      = P * (V * (M * vec4.ofVec3 p 1)) := by
    show P * (V * M) * vec4.ofVec3 p 1 = _
    rw [mat4.mul_mulVec, mat4.mul_mulVec]
  have e3 : mat4.mulVec (mat4.mul P V) (mat4.mulVec M (vec4.ofVec3 p 1))
      = P * (V * (M * vec4.ofVec3 p 1)) := by
    show P * V * (M * vec4.ofVec3 p 1) = _
    rw [mat4.mul_mulVec]
  have e4 : mat4.mulVec P (mat4.mulVec (mat4.mul V M) (vec4.ofVec3 p 1))
      = P * (V * (M * vec4.ofVec3 p 1)) := by
    show P * (V * M * vec4.ofVec3 p 1) = _
    rw [mat4.mul_mulVec]
  rw [e1] at r1
  rw [e2] at r2
  rw [e3] at r3
  rw [e4] at r4
  exact ⟨vec4.isInt_of_isIntLE r1, vec4.isInt_of_isIntLE r2, vec4.isInt_of_isIntLE r3,
    vec4.isInt_of_isIntLE r4, vec4.isInt_of_isIntLE r5⟩

end float_integers

/-! ## The claims -/

section claims

variable {α : Type}

/-- Claim C1, as amended.  For every scalar type the standard shader's
`gl_Position` is `((mat_p * mat_v) * mat_m) * vec4(position, 1.0)`, the
products taken left to right in the shader's own arithmetic.  When that
arithmetic is exact (the scalars form a semiring: no rounding, overflow or
underflow) it is the model matrix applied to `(x, y, z, 1)` first, then the
view matrix, then the projection matrix: it equals `P * (V * (M * (x, y, z, 1)))`
for the GLSL products, and read as a vector of linear algebra it is
`P.mulVec (V.mulVec (M.mulVec (x, y, z, 1)))` for the standard matrix-vector
product `Matrix.mulVec`.  In binary32 the same holds, up to the sign of a
zero, where nothing rounds: for matrices and a position of integers of
absolute value at most `22`, `gl_Position` is the exact integer vector
`P·(V·(M·(x, y, z, 1)))` and the same numbers as the float
`P * (V * (M * (x, y, z, 1)))`. -/
theorem vertex_gl_Position_left_to_right_and_exact :
    (∀ (α : Type) [Add α] [Mul α] [One α] (zoom : α) (M V P : mat4 α) (color : vec4 α)
        (x y z : α),
        (vertex.main zoom M V P color ⟨x, y, z⟩).gl_Position
          = mat4.mulVec (mat4.mul (mat4.mul P V) M) ⟨x, y, z, 1⟩)
      ∧ (∀ (α : Type) [Semiring α] (zoom : α) (M V P : mat4 α) (color : vec4 α) (x y z : α),
        (vertex.main zoom M V P color ⟨x, y, z⟩).gl_Position
            = P * (V * (M * (⟨x, y, z, 1⟩ : vec4 α)))
          ∧ (vertex.main zoom M V P color ⟨x, y, z⟩).gl_Position.toFn
            = Matrix.mulVec P.toMatrix
                (Matrix.mulVec V.toMatrix (Matrix.mulVec M.toMatrix ![x, y, z, 1])))
      ∧ (∀ (zoom : float) (color : vec4 float) (M V P : mat4 Int) (position : vec3 Int),
        M.all (fun i => decide (i.natAbs ≤ 22)) = true →
        V.all (fun i => decide (i.natAbs ≤ 22)) = true →
        P.all (fun i => decide (i.natAbs ≤ 22)) = true →
        position.all (fun i => decide (i.natAbs ≤ 22)) = true →
        vec4.Forall₂ float.isInt (P * (V * (M * vec4.ofVec3 position 1)))
            (vertex.main zoom (M.map float.ofInt) (V.map float.ofInt) (P.map float.ofInt)
              color (position.map float.ofInt)).gl_Position
          ∧ vec4.Forall₂ float.same
            (vertex.main zoom (M.map float.ofInt) (V.map float.ofInt) (P.map float.ofInt)
              color (position.map float.ofInt)).gl_Position
            (P.map float.ofInt * (V.map float.ofInt
              * (M.map float.ofInt * vec4.ofVec3 (position.map float.ofInt) 1)))) := by
  refine ⟨fun α _ _ _ zoom M V P color x y z => rfl, ?_, ?_⟩
  · intro α _ zoom M V P color x y z
    have h : (vertex.main zoom M V P color ⟨x, y, z⟩).gl_Position
        = P * (V * (M * (⟨x, y, z, 1⟩ : vec4 α))) := by
      show P * V * M * (⟨x, y, z, 1⟩ : vec4 α) = _
      rw [mat4.mul_mulVec, mat4.mul_mulVec]
    refine ⟨h, ?_⟩
    rw [h, mat4.toFn_mulVec, mat4.toFn_mulVec, mat4.toFn_mulVec]
    rfl
  · intro zoom color M V P position hM hV hP hp
    obtain ⟨h1, -, -, -, h5⟩ := float.small_integer_products hM hV hP hp
    exact ⟨h1, vec4.same_of_isInt h1 h5⟩

set_option maxRecDepth 100000 in
/-- Witness of C1 in binary32: the translation by `(1, 2, 3)` as model matrix,
the exchange of the x and y axes as view matrix and the scaling by `(2, 3, 4)`
as projection matrix, at the position `(1, 2, 3)`; `gl_Position` is
`(8, 6, 24, 1)`. -/
theorem vertex_gl_Position_left_to_right_and_exact_witness :
    (mat4.translation 1 2 3 : mat4 Int).all (fun i => decide (i.natAbs ≤ 22)) = true
      ∧ (⟨⟨0, 1, 0, 0⟩, ⟨1, 0, 0, 0⟩, ⟨0, 0, 1, 0⟩, ⟨0, 0, 0, 1⟩⟩ : mat4 Int).all
          (fun i => decide (i.natAbs ≤ 22)) = true
      ∧ (⟨⟨2, 0, 0, 0⟩, ⟨0, 3, 0, 0⟩, ⟨0, 0, 4, 0⟩, ⟨0, 0, 0, 1⟩⟩ : mat4 Int).all
          (fun i => decide (i.natAbs ≤ 22)) = true
      ∧ (⟨1, 2, 3⟩ : vec3 Int).all (fun i => decide (i.natAbs ≤ 22)) = true
      ∧ vec4.Forall₂ float.isInt (⟨8, 6, 24, 1⟩ : vec4 Int)
          (vertex.main 0 ((mat4.translation 1 2 3 : mat4 Int).map float.ofInt)
            ((⟨⟨0, 1, 0, 0⟩, ⟨1, 0, 0, 0⟩, ⟨0, 0, 1, 0⟩, ⟨0, 0, 0, 1⟩⟩ : mat4 Int).map
              float.ofInt)
            ((⟨⟨2, 0, 0, 0⟩, ⟨0, 3, 0, 0⟩, ⟨0, 0, 4, 0⟩, ⟨0, 0, 0, 1⟩⟩ : mat4 Int).map
              float.ofInt)
            ⟨1, 1, 1, 1⟩ ((⟨1, 2, 3⟩ : vec3 Int).map float.ofInt)).gl_Position :=
  ⟨by decide, by decide, by decide, by decide,
    (vertex_gl_Position_left_to_right_and_exact.2.2 0 ⟨1, 1, 1, 1⟩ (mat4.translation 1 2 3)
      ⟨⟨0, 1, 0, 0⟩, ⟨1, 0, 0, 0⟩, ⟨0, 0, 1, 0⟩, ⟨0, 0, 0, 1⟩⟩
      ⟨⟨2, 0, 0, 0⟩, ⟨0, 3, 0, 0⟩, ⟨0, 0, 4, 0⟩, ⟨0, 0, 0, 1⟩⟩ ⟨1, 2, 3⟩
      (by decide) (by decide) (by decide) (by decide)).1⟩

set_option maxRecDepth 100000 in
/-- Counterexample to C1 as stated, in binary32.  With the finite matrices
`mat_p = mat_v = diag(2 ^ (-100))` and `mat_m = diag(2 ^ 100)` and the position
`(1, 2, 3)`, the shader forms `mat_p * mat_v` first, whose entries `2 ^ (-200)`
underflow to `0`, and assigns `gl_Position = (0, 0, 0, 0)`; applying the model
matrix first, then the view matrix, then the projection matrix gives
`2 ^ (-100) * (1, 2, 3, 1)`. -/
theorem vertex_gl_Position_underflow_counterexample :
    (mat4.diag (float.pow2 100)).all float.valid = true
      ∧ (mat4.diag (float.pow2 (-100))).all float.valid = true
      ∧ (vertex.main 0 (mat4.diag (float.pow2 100)) (mat4.diag (float.pow2 (-100)))
          (mat4.diag (float.pow2 (-100))) ⟨1, 1, 1, 1⟩
          ⟨float.ofInt 1, float.ofInt 2, float.ofInt 3⟩).gl_Position = ⟨0, 0, 0, 0⟩
      ∧ mat4.diag (float.pow2 (-100)) * (mat4.diag (float.pow2 (-100))
          * (mat4.diag (float.pow2 100)
            * (⟨float.ofInt 1, float.ofInt 2, float.ofInt 3, 1⟩ : vec4 float)))
          = ⟨float.pow2 (-100), float.pow2 (-99), float.round false 3 (-100),
              float.pow2 (-100)⟩
      ∧ (vertex.main 0 (mat4.diag (float.pow2 100)) (mat4.diag (float.pow2 (-100)))
          (mat4.diag (float.pow2 (-100))) ⟨1, 1, 1, 1⟩
          ⟨float.ofInt 1, float.ofInt 2, float.ofInt 3⟩).gl_Position
          ≠ mat4.diag (float.pow2 (-100)) * (mat4.diag (float.pow2 (-100))
            * (mat4.diag (float.pow2 100)
              * (⟨float.ofInt 1, float.ofInt 2, float.ofInt 3, 1⟩ : vec4 float))) := by
  decide

/-- Claim C2.  The heightmap shader's `v_color` is `(r, z, z, 1.0)` for every
position `(x, y, z)`, colour `(r, g, b, a)` and matrices: its red channel is
the input colour's red channel and its green and blue channels both are
`position.z`. -/
theorem heightmap_v_color_eq [Add α] [Mul α] [One α] (M V P : mat4 α)
    (r g b a x y z : α) :
    (heightmap_vertex.main M V P ⟨r, g, b, a⟩ ⟨x, y, z⟩).v_color = ⟨r, z, z, 1⟩
      ∧ (heightmap_vertex.main M V P ⟨r, g, b, a⟩ ⟨x, y, z⟩).v_color.x = r
      ∧ (heightmap_vertex.main M V P ⟨r, g, b, a⟩ ⟨x, y, z⟩).v_color.y = z
      ∧ (heightmap_vertex.main M V P ⟨r, g, b, a⟩ ⟨x, y, z⟩).v_color.z = z :=
  ⟨rfl, rfl, rfl, rfl⟩

/-- Claim C3.  The standard shader passes the colour through: `v_color` is
`(r, g, b, a)`, component for component, for every position, every matrices
and every `zoom`. -/
theorem vertex_v_color_eq_color [Add α] [Mul α] [One α] (zoom : α) (M V P : mat4 α)
    (r g b a : α) (position : vec3 α) :
    (vertex.main zoom M V P ⟨r, g, b, a⟩ position).v_color = ⟨r, g, b, a⟩ :=
  rfl

/-- Claim C4.  Both shaders compute the same clip position: on the same
position and matrices the heightmap shader's `gl_Position` is the standard
shader's `gl_Position`, whatever the colours and `zoom` are. -/
theorem heightmap_gl_Position_eq_vertex_gl_Position [Add α] [Mul α] [One α] (zoom : α)
    (M V P : mat4 α) (color color' : vec4 α) (position : vec3 α) :
    (heightmap_vertex.main M V P color position).gl_Position
      = (vertex.main zoom M V P color' position).gl_Position :=
  rfl

/-- Claim C5.  With the identity as model, view and projection matrix the
standard shader's `gl_Position` is `(x, y, z, 1.0)` for every position
`(x, y, z)`. -/
theorem vertex_gl_Position_identity [NonAssocSemiring α] (zoom : α) (color : vec4 α)
    (x y z : α) :
    (vertex.main zoom mat4.identity mat4.identity mat4.identity color ⟨x, y, z⟩).gl_Position
      = ⟨x, y, z, 1⟩ := by
  rw [vertex_main_gl_Position, mat4.identity_mul, mat4.identity_mul, mat4.identity_mulVec]
  rfl

/-- Claim C6.  The alpha component of the heightmap shader's `v_color` is
`1.0` for every input, and two runs that differ only in the input alpha give
the same `v_color`. -/
theorem heightmap_v_color_alpha_one [Add α] [Mul α] [One α] (M V P : mat4 α)
    (r g b a a' : α) (position : vec3 α) :
    (heightmap_vertex.main M V P ⟨r, g, b, a⟩ position).v_color.w = 1
      ∧ (heightmap_vertex.main M V P ⟨r, g, b, a⟩ position).v_color
        = (heightmap_vertex.main M V P ⟨r, g, b, a'⟩ position).v_color :=
  ⟨rfl, rfl⟩

/-- Claim C7.  The order of application matters.  There are matrices `M`
(the translation by `(1, 2, 3)`), `V` (the exchange of the x and y axes) and
`P` (the scaling by `(2, 3, 4)`), none of them the identity, and a position,
`(1, 2, 3)`, for which the standard shader's `gl_Position`, `P·V·M·v`, differs
from the clip position it computes when the three matrices are handed over in
any other order: `M·V·P·v` (model and projection exchanged), `P·M·V·v`,
`V·P·M·v`, `V·M·P·v` and `M·P·V·v`. -/
theorem vertex_gl_Position_order_matters :
    ∃ (M V P : mat4 ℚ) (position : vec3 ℚ),
      M ≠ mat4.identity ∧ V ≠ mat4.identity ∧ P ≠ mat4.identity ∧
      ∀ (zoom : ℚ) (color : vec4 ℚ),
        (vertex.main zoom P V M color position).gl_Position
            ≠ (vertex.main zoom M V P color position).gl_Position
          ∧ (vertex.main zoom V M P color position).gl_Position
            ≠ (vertex.main zoom M V P color position).gl_Position
          ∧ (vertex.main zoom M P V color position).gl_Position
            ≠ (vertex.main zoom M V P color position).gl_Position
          ∧ (vertex.main zoom P M V color position).gl_Position
            ≠ (vertex.main zoom M V P color position).gl_Position
          ∧ (vertex.main zoom V P M color position).gl_Position
            ≠ (vertex.main zoom M V P color position).gl_Position := by
  refine ⟨⟨⟨1, 0, 0, 0⟩, ⟨0, 1, 0, 0⟩, ⟨0, 0, 1, 0⟩, ⟨1, 2, 3, 1⟩⟩,
    ⟨⟨0, 1, 0, 0⟩, ⟨1, 0, 0, 0⟩, ⟨0, 0, 1, 0⟩, ⟨0, 0, 0, 1⟩⟩,
    ⟨⟨2, 0, 0, 0⟩, ⟨0, 3, 0, 0⟩, ⟨0, 0, 4, 0⟩, ⟨0, 0, 0, 1⟩⟩,
    ⟨1, 2, 3⟩, ?_, ?_, ?_, ?_⟩
  · simp [mat4.identity, mat4.diag]
  · simp [mat4.identity, mat4.diag]
  · simp [mat4.identity, mat4.diag]
  · intro zoom color
    simp only [vertex_main_gl_Position, mat4.mul, mat4.mulVec, vec4.ofVec3]
    norm_num

/-- Claim C8.  The worked example: for position `(1, 2, 3)`, colour
`(0.5, 0.1, 0.9, 0.2)` and identity model, view and projection matrices both
shaders give `gl_Position = (1, 2, 3, 1)`; the standard shader gives
`v_color = (0.5, 0.1, 0.9, 0.2)` and the heightmap shader gives
`v_color = (0.5, 3, 3, 1.0)`. -/
theorem worked_example (zoom : ℚ) :
    vertex.main zoom mat4.identity mat4.identity mat4.identity
        (⟨0.5, 0.1, 0.9, 0.2⟩ : vec4 ℚ) (⟨1, 2, 3⟩ : vec3 ℚ)
        = ⟨⟨1, 2, 3, 1⟩, ⟨0.5, 0.1, 0.9, 0.2⟩⟩
      ∧ heightmap_vertex.main mat4.identity mat4.identity mat4.identity
        (⟨0.5, 0.1, 0.9, 0.2⟩ : vec4 ℚ) (⟨1, 2, 3⟩ : vec3 ℚ)
        = ⟨⟨1, 2, 3, 1⟩, ⟨0.5, 3, 3, 1.0⟩⟩ := by
  constructor <;>
    norm_num [vertex.main, heightmap_vertex.main, mat4.mul_def, mat4.hmul_def, mat4.identity,
      mat4.diag, mat4.mul, mat4.mulVec, vec4.ofVec3]

/-- Claim C9.  The uniform `zoom` has no effect: two runs of the standard
shader on the same position, colour and matrices give the same `gl_Position`
and the same `v_color`, whatever the two values of `zoom` are. -/
theorem vertex_zoom_no_effect [Add α] [Mul α] [One α] (zoom zoom' : α) (M V P : mat4 α)
    (color : vec4 α) (position : vec3 α) :
    (vertex.main zoom M V P color position).gl_Position
        = (vertex.main zoom' M V P color position).gl_Position
      ∧ (vertex.main zoom M V P color position).v_color
        = (vertex.main zoom' M V P color position).v_color :=
  ⟨rfl, rfl⟩

/-- Claim C10, as amended.  For every scalar type both shaders assign the
same `gl_Position`, the product `((P·V)·M)·v` taken left to right, with
`v = (x, y, z, 1)`.  When the scalar arithmetic is exact (a semiring) every
parenthesisation gives that clip position: `(P·(V·M))·v` (the matrices
combined into one model-view-projection matrix first), `(P·V)·(M·v)`,
`P·((V·M)·v)` and `P·(V·(M·v))`; read in linear algebra it is the
matrix-vector product with the matrix products `(P * V) * M` and `P * (V * M)`
of `Matrix`, and `P.mulVec (V.mulVec (M.mulVec v))`.  In binary32 the same
holds, up to the sign of a zero, where nothing rounds: for matrices and a
position of integers of absolute value at most `22` each of the five
parenthesisations, computed in floats, is the exact integer vector
`P·(V·(M·v))`. -/
theorem gl_Position_every_parenthesisation :
    (∀ (α : Type) [Add α] [Mul α] [One α] (zoom : α) (M V P : mat4 α) (color : vec4 α)
        (x y z : α),
        (heightmap_vertex.main M V P color ⟨x, y, z⟩).gl_Position
            = (vertex.main zoom M V P color ⟨x, y, z⟩).gl_Position
          ∧ (vertex.main zoom M V P color ⟨x, y, z⟩).gl_Position
            = ((P * V) * M) * (⟨x, y, z, 1⟩ : vec4 α))
      ∧ (∀ (α : Type) [Semiring α] (zoom : α) (M V P : mat4 α) (color : vec4 α) (x y z : α),
        (vertex.main zoom M V P color ⟨x, y, z⟩).gl_Position
            = (P * (V * M)) * (⟨x, y, z, 1⟩ : vec4 α)
          ∧ (vertex.main zoom M V P color ⟨x, y, z⟩).gl_Position
            = (P * V) * (M * (⟨x, y, z, 1⟩ : vec4 α))
          ∧ (vertex.main zoom M V P color ⟨x, y, z⟩).gl_Position
            = P * ((V * M) * (⟨x, y, z, 1⟩ : vec4 α))
          ∧ (vertex.main zoom M V P color ⟨x, y, z⟩).gl_Position
            = P * (V * (M * (⟨x, y, z, 1⟩ : vec4 α)))
          ∧ (vertex.main zoom M V P color ⟨x, y, z⟩).gl_Position.toFn
            = Matrix.mulVec ((P.toMatrix * V.toMatrix) * M.toMatrix) ![x, y, z, 1]
          ∧ (vertex.main zoom M V P color ⟨x, y, z⟩).gl_Position.toFn
            = Matrix.mulVec (P.toMatrix * (V.toMatrix * M.toMatrix)) ![x, y, z, 1]
          ∧ (vertex.main zoom M V P color ⟨x, y, z⟩).gl_Position.toFn
            = Matrix.mulVec P.toMatrix
                (Matrix.mulVec V.toMatrix (Matrix.mulVec M.toMatrix ![x, y, z, 1])))
      ∧ (∀ (zoom : float) (color : vec4 float) (M V P : mat4 Int) (position : vec3 Int),
        M.all (fun i => decide (i.natAbs ≤ 22)) = true →
        V.all (fun i => decide (i.natAbs ≤ 22)) = true →
        P.all (fun i => decide (i.natAbs ≤ 22)) = true →
        position.all (fun i => decide (i.natAbs ≤ 22)) = true →
        vec4.Forall₂ float.isInt (P * (V * (M * vec4.ofVec3 position 1)))
            (vertex.main zoom (M.map float.ofInt) (V.map float.ofInt) (P.map float.ofInt)
              color (position.map float.ofInt)).gl_Position
          ∧ vec4.Forall₂ float.isInt (P * (V * (M * vec4.ofVec3 position 1)))
            (heightmap_vertex.main (M.map float.ofInt) (V.map float.ofInt)
              (P.map float.ofInt) color (position.map float.ofInt)).gl_Position
          ∧ vec4.Forall₂ float.isInt (P * (V * (M * vec4.ofVec3 position 1)))
            ((P.map float.ofInt * (V.map float.ofInt * M.map float.ofInt))
              * vec4.ofVec3 (position.map float.ofInt) 1)
          ∧ vec4.Forall₂ float.isInt (P * (V * (M * vec4.ofVec3 position 1)))
            ((P.map float.ofInt * V.map float.ofInt)
              * (M.map float.ofInt * vec4.ofVec3 (position.map float.ofInt) 1))
          ∧ vec4.Forall₂ float.isInt (P * (V * (M * vec4.ofVec3 position 1)))
            (P.map float.ofInt * ((V.map float.ofInt * M.map float.ofInt)
              * vec4.ofVec3 (position.map float.ofInt) 1))
          ∧ vec4.Forall₂ float.isInt (P * (V * (M * vec4.ofVec3 position 1)))
            (P.map float.ofInt * (V.map float.ofInt
              * (M.map float.ofInt * vec4.ofVec3 (position.map float.ofInt) 1)))) := by
  refine ⟨fun α _ _ _ zoom M V P color x y z => ⟨rfl, rfl⟩, ?_, ?_⟩
  · intro α _ zoom M V P color x y z
    have h : (vertex.main zoom M V P color ⟨x, y, z⟩).gl_Position
        = ((P * V) * M) * (⟨x, y, z, 1⟩ : vec4 α) := rfl
    have hv : (⟨x, y, z, 1⟩ : vec4 α).toFn = ![x, y, z, 1] := rfl
    refine ⟨?_, ?_, ?_, ?_, ?_, ?_, ?_⟩
    · rw [h, mat4.mul_assoc]
    · rw [h, mat4.mul_mulVec]
    · rw [h, mat4.mul_assoc, mat4.mul_mulVec]
    · rw [h, mat4.mul_mulVec, mat4.mul_mulVec]
    · rw [h, mat4.toFn_mulVec, mat4.toMatrix_mul, mat4.toMatrix_mul, hv]
    · rw [h, mat4.toFn_mulVec, mat4.toMatrix_mul, mat4.toMatrix_mul, hv, Matrix.mul_assoc]
    · rw [h, mat4.mul_mulVec, mat4.mul_mulVec, mat4.toFn_mulVec, mat4.toFn_mulVec,
        mat4.toFn_mulVec, hv]
  · intro zoom color M V P position hM hV hP hp
    obtain ⟨h1, h2, h3, h4, h5⟩ := float.small_integer_products hM hV hP hp
    exact ⟨h1, h1, h2, h3, h4, h5⟩

set_option maxRecDepth 100000 in
/-- Witness of C10 in binary32: the translation by `(1, 2, 3)` as model
matrix, the exchange of the x and y axes as view matrix and the scaling by
`(2, 3, 4)` as projection matrix, at the position `(1, 2, 3)`; the shader's
`gl_Position` and the product with the matrices combined first are both
`(8, 6, 24, 1)`. -/
theorem gl_Position_every_parenthesisation_witness :
    (mat4.translation 1 2 3 : mat4 Int).all (fun i => decide (i.natAbs ≤ 22)) = true
      ∧ (⟨⟨0, 1, 0, 0⟩, ⟨1, 0, 0, 0⟩, ⟨0, 0, 1, 0⟩, ⟨0, 0, 0, 1⟩⟩ : mat4 Int).all
          (fun i => decide (i.natAbs ≤ 22)) = true
      ∧ (⟨⟨2, 0, 0, 0⟩, ⟨0, 3, 0, 0⟩, ⟨0, 0, 4, 0⟩, ⟨0, 0, 0, 1⟩⟩ : mat4 Int).all
          (fun i => decide (i.natAbs ≤ 22)) = true
      ∧ (⟨1, 2, 3⟩ : vec3 Int).all (fun i => decide (i.natAbs ≤ 22)) = true
      ∧ vec4.Forall₂ float.isInt (⟨8, 6, 24, 1⟩ : vec4 Int)
          (vertex.main 0 ((mat4.translation 1 2 3 : mat4 Int).map float.ofInt)
            ((⟨⟨0, 1, 0, 0⟩, ⟨1, 0, 0, 0⟩, ⟨0, 0, 1, 0⟩, ⟨0, 0, 0, 1⟩⟩ : mat4 Int).map
              float.ofInt)
            ((⟨⟨2, 0, 0, 0⟩, ⟨0, 3, 0, 0⟩, ⟨0, 0, 4, 0⟩, ⟨0, 0, 0, 1⟩⟩ : mat4 Int).map
              float.ofInt)
            ⟨1, 1, 1, 1⟩ ((⟨1, 2, 3⟩ : vec3 Int).map float.ofInt)).gl_Position
      ∧ vec4.Forall₂ float.isInt (⟨8, 6, 24, 1⟩ : vec4 Int)
          (((⟨⟨2, 0, 0, 0⟩, ⟨0, 3, 0, 0⟩, ⟨0, 0, 4, 0⟩, ⟨0, 0, 0, 1⟩⟩ : mat4 Int).map
              float.ofInt
            * ((⟨⟨0, 1, 0, 0⟩, ⟨1, 0, 0, 0⟩, ⟨0, 0, 1, 0⟩, ⟨0, 0, 0, 1⟩⟩ : mat4 Int).map
                float.ofInt
              * (mat4.translation 1 2 3 : mat4 Int).map float.ofInt))
            * vec4.ofVec3 ((⟨1, 2, 3⟩ : vec3 Int).map float.ofInt) 1) :=
  ⟨by decide, by decide, by decide, by decide,
    (gl_Position_every_parenthesisation.2.2 0 ⟨1, 1, 1, 1⟩ (mat4.translation 1 2 3)
      ⟨⟨0, 1, 0, 0⟩, ⟨1, 0, 0, 0⟩, ⟨0, 0, 1, 0⟩, ⟨0, 0, 0, 1⟩⟩
      ⟨⟨2, 0, 0, 0⟩, ⟨0, 3, 0, 0⟩, ⟨0, 0, 4, 0⟩, ⟨0, 0, 0, 1⟩⟩ ⟨1, 2, 3⟩
      (by decide) (by decide) (by decide) (by decide)).1,
    (gl_Position_every_parenthesisation.2.2 0 ⟨1, 1, 1, 1⟩ (mat4.translation 1 2 3)
      ⟨⟨0, 1, 0, 0⟩, ⟨1, 0, 0, 0⟩, ⟨0, 0, 1, 0⟩, ⟨0, 0, 0, 1⟩⟩
      ⟨⟨2, 0, 0, 0⟩, ⟨0, 3, 0, 0⟩, ⟨0, 0, 4, 0⟩, ⟨0, 0, 0, 1⟩⟩ ⟨1, 2, 3⟩
      (by decide) (by decide) (by decide) (by decide)).2.2.1⟩

set_option maxRecDepth 100000 in
/-- Counterexample to C10 as stated, in binary32.  With the finite matrices
`mat_p = mat_v = diag(2 ^ 100)` and `mat_m = diag(2 ^ (-100))` and the position
`(1, 2, 3)`, the product `mat_p * mat_v` the shader forms first overflows to
infinity on the diagonal, `infinity * 0` is NaN, and the shader assigns
`gl_Position = (NaN, NaN, NaN, NaN)`; combining `mat_v * mat_m` first, or
applying the matrices to the vector one after the other, gives the finite
`2 ^ 100 * (1, 2, 3, 1)`. -/
theorem gl_Position_overflow_counterexample :
    (mat4.diag (float.pow2 100)).all float.valid = true
      ∧ (mat4.diag (float.pow2 (-100))).all float.valid = true
      ∧ (vertex.main 0 (mat4.diag (float.pow2 (-100))) (mat4.diag (float.pow2 100))
          (mat4.diag (float.pow2 100)) ⟨1, 1, 1, 1⟩
          ⟨float.ofInt 1, float.ofInt 2, float.ofInt 3⟩).gl_Position
          = ⟨float.nan, float.nan, float.nan, float.nan⟩
      ∧ (mat4.diag (float.pow2 100) * (mat4.diag (float.pow2 100)
            * mat4.diag (float.pow2 (-100))))
          * (⟨float.ofInt 1, float.ofInt 2, float.ofInt 3, 1⟩ : vec4 float)
          = ⟨float.pow2 100, float.pow2 101, float.round false 3 100, float.pow2 100⟩
      ∧ mat4.diag (float.pow2 100) * (mat4.diag (float.pow2 100)
          * (mat4.diag (float.pow2 (-100))
            * (⟨float.ofInt 1, float.ofInt 2, float.ofInt 3, 1⟩ : vec4 float)))
          = ⟨float.pow2 100, float.pow2 101, float.round false 3 100, float.pow2 100⟩
      ∧ (vertex.main 0 (mat4.diag (float.pow2 (-100))) (mat4.diag (float.pow2 100))
          (mat4.diag (float.pow2 100)) ⟨1, 1, 1, 1⟩
          ⟨float.ofInt 1, float.ofInt 2, float.ofInt 3⟩).gl_Position
          ≠ (mat4.diag (float.pow2 100) * (mat4.diag (float.pow2 100)
              * mat4.diag (float.pow2 (-100))))
            * (⟨float.ofInt 1, float.ofInt 2, float.ofInt 3, 1⟩ : vec4 float) := by
  decide

/-- Claim C11, as amended.  Malformed matrices are not rejected.  For every
scalar type and every input both shaders return a pair of a clip position and
an output colour, with `v_color = color` in the standard shader and
`v_color = (color.red, position.z, position.z, 1.0)` in the heightmap shader,
whatever the matrices are; there is no error result.  The all-zero matrix,
which no matrix `N` turns into the identity from either side, is accepted as
the model matrix, and the clip position of both shaders is then
`(0, 0, 0, 0)` when the scalar arithmetic is exact; in binary32 it is
`(±0, ±0, ±0, ±0)` when the product `mat_p * mat_v` has not overflowed and
the position is finite. -/
theorem malformed_matrices_not_rejected :
    (∀ (α : Type) [Add α] [Mul α] [One α] (zoom : α) (M V P : mat4 α) (color : vec4 α)
        (position : vec3 α),
        (∃ clipPosition, vertex.main zoom M V P color position = ⟨clipPosition, color⟩)
          ∧ (∃ clipPosition, heightmap_vertex.main M V P color position
              = ⟨clipPosition, ⟨color.x, position.z, position.z, 1⟩⟩))
      ∧ (∀ (α : Type) [NonAssocSemiring α] [Nontrivial α] (zoom : α) (V P : mat4 α)
        (color : vec4 α) (position : vec3 α),
        (∀ N : mat4 α, N * mat4.zero ≠ mat4.identity ∧ mat4.zero * N ≠ mat4.identity)
          ∧ vertex.main zoom mat4.zero V P color position = ⟨⟨0, 0, 0, 0⟩, color⟩
          ∧ heightmap_vertex.main mat4.zero V P color position
            = ⟨⟨0, 0, 0, 0⟩, ⟨color.x, position.z, position.z, 1⟩⟩)
      ∧ (∀ (zoom : float) (V P : mat4 float) (color : vec4 float) (position : vec3 float),
        (P * V).all float.isFinite = true → position.all float.isFinite = true →
          (vertex.main zoom mat4.zero V P color position).gl_Position.all float.isZero = true
            ∧ (heightmap_vertex.main mat4.zero V P color position).gl_Position.all
                float.isZero = true) := by
  refine ⟨fun α _ _ _ zoom M V P color position => ⟨⟨_, rfl⟩, ⟨_, rfl⟩⟩, ?_, ?_⟩
  · intro α _ _ zoom V P color position
    have hclip : ∀ v : vec4 α,
        mat4.mulVec (mat4.mul (mat4.mul P V) mat4.zero) v = ⟨0, 0, 0, 0⟩ := by
      intro v
      rw [mat4.mul_zero, mat4.zero_mulVec]
    refine ⟨?_, ?_, ?_⟩
    · intro N
      rw [mat4.mul_def, mat4.mul_def, mat4.mul_zero, mat4.zero_mul]
      exact ⟨mat4.zero_ne_identity, mat4.zero_ne_identity⟩
    · show Outputs.mk (mat4.mulVec (mat4.mul (mat4.mul P V) mat4.zero) _) color = _
      rw [hclip]
    · show Outputs.mk (mat4.mulVec (mat4.mul (mat4.mul P V) mat4.zero) _)
        ⟨color.x, position.z, position.z, 1⟩ = _
      rw [hclip]
  · intro zoom V P color position hPV hpos
    exact ⟨float.zero_model_clip hPV hpos, float.zero_model_clip hPV hpos⟩

set_option maxRecDepth 100000 in
/-- Witness of C11 in binary32: the all-zero model matrix with the view matrix
`diag(2)` and the projection matrix `diag(3)`, whose product is finite, at the
position `(1, 2, 3)`. -/
theorem malformed_matrices_not_rejected_witness :
    (mat4.diag (float.ofInt 3) * mat4.diag (float.ofInt 2)).all float.isFinite = true
      ∧ (⟨float.ofInt 1, float.ofInt 2, float.ofInt 3⟩ : vec3 float).all float.isFinite = true
      ∧ (vertex.main 0 mat4.zero (mat4.diag (float.ofInt 2)) (mat4.diag (float.ofInt 3))
          ⟨1, 1, 1, 1⟩ ⟨float.ofInt 1, float.ofInt 2, float.ofInt 3⟩).gl_Position.all
            float.isZero = true :=
  ⟨by decide, by decide,
    (malformed_matrices_not_rejected.2.2 0 (mat4.diag (float.ofInt 2))
      (mat4.diag (float.ofInt 3)) ⟨1, 1, 1, 1⟩
      ⟨float.ofInt 1, float.ofInt 2, float.ofInt 3⟩ (by decide) (by decide)).1⟩

set_option maxRecDepth 100000 in
/-- Counterexample to C11 as stated, in binary32.  With the all-zero model
matrix, the finite `mat_v = mat_p = diag(2 ^ 100)` and the position
`(1, 2, 3)`, the product `mat_p * mat_v` overflows to infinity on the
diagonal and `infinity * 0` is NaN: the standard shader returns
`gl_Position = (NaN, NaN, NaN, NaN)`, not `(0, 0, 0, 0)`, together with
`v_color = color`. -/
theorem zero_model_matrix_nan_counterexample :
    (mat4.diag (float.pow2 100)).all float.valid = true
      ∧ vertex.main 0 mat4.zero (mat4.diag (float.pow2 100)) (mat4.diag (float.pow2 100))
          ⟨1, 1, 1, 1⟩ ⟨float.ofInt 1, float.ofInt 2, float.ofInt 3⟩
          = ⟨⟨float.nan, float.nan, float.nan, float.nan⟩, ⟨1, 1, 1, 1⟩⟩
      ∧ (vertex.main 0 mat4.zero (mat4.diag (float.pow2 100)) (mat4.diag (float.pow2 100))
          ⟨1, 1, 1, 1⟩ ⟨float.ofInt 1, float.ofInt 2, float.ofInt 3⟩).gl_Position
          ≠ ⟨0, 0, 0, 0⟩ := by
  decide

/-- Claim C12.  The heightmap colour uses the untransformed height and nothing
else.  Two runs of the heightmap shader that agree on `color.x` (red) and on
`position.z` give the same `v_color`, whatever the matrices, the position's
`x` and `y` and the colour's green, blue and alpha are in the two runs; that
colour is `(color.x, position.z, position.z, 1.0)`, with the raw `position.z`.
It is not the `z` of the transformed position: with the model matrix scaling
`z` by 2 and the position `(0, 0, 1)`, the green channel is `1` while
`gl_Position.z` is `2`. -/
theorem heightmap_v_color_depends_only_on_red_and_height [Add α] [Mul α] [One α]
    (M V P M' V' P' : mat4 α) (color color' : vec4 α) (position position' : vec3 α)
    (hred : color.x = color'.x) (hz : position.z = position'.z) :
    (heightmap_vertex.main M V P color position).v_color
        = (heightmap_vertex.main M' V' P' color' position').v_color
      ∧ (heightmap_vertex.main M V P color position).v_color
        = ⟨color.x, position.z, position.z, 1⟩
      ∧ ∃ (M₀ V₀ P₀ : mat4 ℚ) (color₀ : vec4 ℚ) (position₀ : vec3 ℚ),
          (heightmap_vertex.main M₀ V₀ P₀ color₀ position₀).v_color.y
            ≠ (heightmap_vertex.main M₀ V₀ P₀ color₀ position₀).gl_Position.z := by
  refine ⟨?_, rfl, ?_⟩
  · show (⟨color.x, position.z, position.z, 1⟩ : vec4 α)
      = ⟨color'.x, position'.z, position'.z, 1⟩
    rw [hred, hz]
  · refine ⟨⟨⟨1, 0, 0, 0⟩, ⟨0, 1, 0, 0⟩, ⟨0, 0, 2, 0⟩, ⟨0, 0, 0, 1⟩⟩, mat4.identity,
      mat4.identity, ⟨0, 0, 0, 0⟩, ⟨0, 0, 1⟩, ?_⟩
    norm_num [heightmap_vertex.main, mat4.mul_def, mat4.hmul_def, mat4.identity, mat4.diag,
      mat4.mul, mat4.mulVec, vec4.ofVec3]

/-- Witness of C12: two runs over the rationals with different matrices,
different `x`, `y`, green, blue and alpha, the same red `1/2` and the same
height `3`. -/
theorem heightmap_v_color_depends_only_on_red_and_height_witness :
    (⟨1 / 2, 1, 2, 3⟩ : vec4 ℚ).x = (⟨1 / 2, 4, 5, 6⟩ : vec4 ℚ).x
      ∧ (⟨1, 2, 3⟩ : vec3 ℚ).z = (⟨7, 8, 3⟩ : vec3 ℚ).z
      ∧ (heightmap_vertex.main mat4.identity mat4.zero (mat4.translation 1 2 3)
          (⟨1 / 2, 1, 2, 3⟩ : vec4 ℚ) ⟨1, 2, 3⟩).v_color
        = (heightmap_vertex.main mat4.zero (mat4.translation 4 5 6) mat4.identity
          (⟨1 / 2, 4, 5, 6⟩ : vec4 ℚ) ⟨7, 8, 3⟩).v_color :=
  ⟨rfl, rfl,
    (heightmap_v_color_depends_only_on_red_and_height mat4.identity mat4.zero
      (mat4.translation 1 2 3) mat4.zero (mat4.translation 4 5 6) mat4.identity
      (⟨1 / 2, 1, 2, 3⟩ : vec4 ℚ) (⟨1 / 2, 4, 5, 6⟩ : vec4 ℚ) (⟨1, 2, 3⟩ : vec3 ℚ)
      (⟨7, 8, 3⟩ : vec3 ℚ) rfl rfl).1⟩

/-- Claim C13, as amended.  The position is a point (`w = 1`), so a
translation applies: with the translation by `(tx, ty, tz)` as model matrix
and the identity as view and projection matrix, both shaders give
`gl_Position = (x + tx, y + ty, z + tz, 1)` for every position `(x, y, z)`,
where `+` is the sum of the shader's own scalar arithmetic.  That is the exact
sum when the arithmetic is exact; in binary32, for finite data, it is the sum
rounded to nearest, up to the sign of a zero, and `w` is exactly `1`. -/
theorem translation_applies_to_position :
    (∀ (α : Type) [NonAssocSemiring α] (zoom : α) (color : vec4 α) (tx ty tz x y z : α),
        (vertex.main zoom (mat4.translation tx ty tz) mat4.identity mat4.identity color
            ⟨x, y, z⟩).gl_Position = ⟨x + tx, y + ty, z + tz, 1⟩
          ∧ (heightmap_vertex.main (mat4.translation tx ty tz) mat4.identity mat4.identity
            color ⟨x, y, z⟩).gl_Position = ⟨x + tx, y + ty, z + tz, 1⟩)
      ∧ (∀ (zoom : float) (color : vec4 float) (t position : vec3 float),
        t.all float.valid = true → t.all float.isFinite = true →
        position.all float.valid = true → position.all float.isFinite = true →
        ∃ gx gy gz : float,
          (vertex.main zoom (mat4.translation t.x t.y t.z) mat4.identity mat4.identity color
              position).gl_Position = ⟨gx, gy, gz, 1⟩
            ∧ (heightmap_vertex.main (mat4.translation t.x t.y t.z) mat4.identity
              mat4.identity color position).gl_Position = ⟨gx, gy, gz, 1⟩
            ∧ float.same gx (position.x + t.x) ∧ float.same gy (position.y + t.y)
            ∧ float.same gz (position.z + t.z)) := by
  constructor
  · intro α _ zoom color tx ty tz x y z
    have h : mat4.mulVec (mat4.mul (mat4.mul mat4.identity mat4.identity)
        (mat4.translation tx ty tz)) (vec4.ofVec3 ⟨x, y, z⟩ 1)
        = (⟨x + tx, y + ty, z + tz, 1⟩ : vec4 α) := by
      rw [mat4.identity_mul, mat4.identity_mul]
      simp [mat4.translation, mat4.mulVec, vec4.ofVec3]
    exact ⟨h, h⟩
  · rintro zoom color ⟨tx, ty, tz⟩ ⟨x, y, z⟩ htv htf hpv hpf
    simp only [vec3.all, Bool.and_eq_true] at htv htf hpv hpf
    obtain ⟨gx, gy, gz, hg, hx, hy, hz⟩ := float.translation_clip htv.1.1 htv.1.2 htv.2
      hpv.1.1 hpv.1.2 hpv.2 htf.1.1 htf.1.2 htf.2 hpf.1.1 hpf.1.2 hpf.2
    exact ⟨gx, gy, gz, hg, hg, hx, hy, hz⟩

set_option maxRecDepth 100000 in
/-- Witness of C13 in binary32: the translation by `(1, -2, 1/2)` at the
position `(2 ^ 24, 2, 3)`. -/
theorem translation_applies_to_position_witness :
    (⟨1, float.ofInt (-2), float.pow2 (-1)⟩ : vec3 float).all float.valid = true
      ∧ (⟨1, float.ofInt (-2), float.pow2 (-1)⟩ : vec3 float).all float.isFinite = true
      ∧ (⟨float.pow2 24, float.ofInt 2, float.ofInt 3⟩ : vec3 float).all float.valid = true
      ∧ (⟨float.pow2 24, float.ofInt 2, float.ofInt 3⟩ : vec3 float).all float.isFinite = true
      ∧ ∃ gx gy gz : float,
          (vertex.main 0 (mat4.translation 1 (float.ofInt (-2)) (float.pow2 (-1)))
              mat4.identity mat4.identity ⟨1, 1, 1, 1⟩
              ⟨float.pow2 24, float.ofInt 2, float.ofInt 3⟩).gl_Position = ⟨gx, gy, gz, 1⟩
            ∧ float.same gx (float.pow2 24 + 1)
            ∧ float.same gy (float.ofInt 2 + float.ofInt (-2))
            ∧ float.same gz (float.ofInt 3 + float.pow2 (-1)) :=
  ⟨by decide, by decide, by decide, by decide,
    (translation_applies_to_position.2 0 ⟨1, 1, 1, 1⟩ ⟨1, float.ofInt (-2), float.pow2 (-1)⟩
      ⟨float.pow2 24, float.ofInt 2, float.ofInt 3⟩ (by decide) (by decide) (by decide)
      (by decide)).imp fun _ h => h.imp fun _ h => h.imp fun _ h => ⟨h.1, h.2.2⟩⟩

set_option maxRecDepth 100000 in
/-- Counterexample to C13 as stated, read with the exact sum, in binary32.
With the translation by `(1, 0, 0)` at the position `(2 ^ 24, 0, 0)` the
shader's sum `2 ^ 24 + 1` rounds to `2 ^ 24`: `gl_Position.x` stands for
`16777216`, not for `x + tx = 16777217`. -/
theorem translation_rounding_counterexample :
    (float.pow2 24).toRat = some 16777216
      ∧ (1 : float).toRat = some 1
      ∧ (vertex.main 0 (mat4.translation 1 0 0) mat4.identity mat4.identity ⟨1, 1, 1, 1⟩
          ⟨float.pow2 24, 0, 0⟩).gl_Position = ⟨float.pow2 24, 0, 0, 1⟩
      ∧ (vertex.main 0 (mat4.translation 1 0 0) mat4.identity mat4.identity ⟨1, 1, 1, 1⟩
          ⟨float.pow2 24, 0, 0⟩).gl_Position.x.toRat ≠ some (16777216 + 1) := by
  have hp : float.pow2 24 = float.fin false (2 ^ 23) 1 := by decide
  have hg : (vertex.main 0 (mat4.translation 1 0 0) mat4.identity mat4.identity ⟨1, 1, 1, 1⟩
      ⟨float.pow2 24, 0, 0⟩).gl_Position = ⟨float.pow2 24, 0, 0, 1⟩ := by decide
  refine ⟨?_, ?_, hg, ?_⟩
  · rw [hp]; norm_num [float.toRat]
  · rw [float.float_one_def]; norm_num [float.toRat]
  · rw [hg, hp]; norm_num [float.toRat]

/-- Claim C14.  Affine transforms keep `w = 1`: when the model, the view and
the projection matrix each have the bottom row `(0, 0, 0, 1)`, the `w`
component of `gl_Position` is `1` in both shaders, for every position
`(x, y, z)`. -/
theorem affine_matrices_keep_w_one [NonAssocSemiring α] (zoom : α) (M V P : mat4 α)
    (color : vec4 α) (x y z : α)
    (hM : M.bottomRow = ⟨0, 0, 0, 1⟩) (hV : V.bottomRow = ⟨0, 0, 0, 1⟩)
    (hP : P.bottomRow = ⟨0, 0, 0, 1⟩) :
    (vertex.main zoom M V P color ⟨x, y, z⟩).gl_Position.w = 1
      ∧ (heightmap_vertex.main M V P color ⟨x, y, z⟩).gl_Position.w = 1 := by
  have hPVM : (mat4.mul (mat4.mul P V) M).IsAffine :=
    mat4.IsAffine.mul (mat4.IsAffine.mul hP hV) hM
  have h : (mat4.mulVec (mat4.mul (mat4.mul P V) M) (vec4.ofVec3 ⟨x, y, z⟩ 1)).w = 1 :=
    hPVM.mulVec_w _
  exact ⟨h, h⟩

/-- Witness of C14 over the rationals: a translation as model matrix, the
exchange of the x and y axes as view matrix and a scaling as projection
matrix, all three with bottom row `(0, 0, 0, 1)`. -/
theorem affine_matrices_keep_w_one_witness :
    (mat4.translation 1 2 3 : mat4 ℚ).bottomRow = ⟨0, 0, 0, 1⟩
      ∧ (⟨⟨0, 1, 0, 0⟩, ⟨1, 0, 0, 0⟩, ⟨0, 0, 1, 0⟩, ⟨0, 0, 0, 1⟩⟩ : mat4 ℚ).bottomRow
        = ⟨0, 0, 0, 1⟩
      ∧ (⟨⟨2, 0, 0, 0⟩, ⟨0, 3, 0, 0⟩, ⟨0, 0, 4, 0⟩, ⟨0, 0, 0, 1⟩⟩ : mat4 ℚ).bottomRow
        = ⟨0, 0, 0, 1⟩
      ∧ (vertex.main (7 : ℚ) (mat4.translation 1 2 3)
          ⟨⟨0, 1, 0, 0⟩, ⟨1, 0, 0, 0⟩, ⟨0, 0, 1, 0⟩, ⟨0, 0, 0, 1⟩⟩
          ⟨⟨2, 0, 0, 0⟩, ⟨0, 3, 0, 0⟩, ⟨0, 0, 4, 0⟩, ⟨0, 0, 0, 1⟩⟩
          ⟨1 / 2, 1 / 10, 9 / 10, 1 / 5⟩ ⟨1, 2, 3⟩).gl_Position.w = 1
      ∧ (heightmap_vertex.main (mat4.translation 1 2 3 : mat4 ℚ)
          ⟨⟨0, 1, 0, 0⟩, ⟨1, 0, 0, 0⟩, ⟨0, 0, 1, 0⟩, ⟨0, 0, 0, 1⟩⟩
          ⟨⟨2, 0, 0, 0⟩, ⟨0, 3, 0, 0⟩, ⟨0, 0, 4, 0⟩, ⟨0, 0, 0, 1⟩⟩
          ⟨1 / 2, 1 / 10, 9 / 10, 1 / 5⟩ ⟨1, 2, 3⟩).gl_Position.w = 1 :=
  ⟨rfl, rfl, rfl,
    affine_matrices_keep_w_one (7 : ℚ) (mat4.translation 1 2 3)
      ⟨⟨0, 1, 0, 0⟩, ⟨1, 0, 0, 0⟩, ⟨0, 0, 1, 0⟩, ⟨0, 0, 0, 1⟩⟩
      ⟨⟨2, 0, 0, 0⟩, ⟨0, 3, 0, 0⟩, ⟨0, 0, 4, 0⟩, ⟨0, 0, 0, 1⟩⟩
      ⟨1 / 2, 1 / 10, 9 / 10, 1 / 5⟩ 1 2 3 rfl rfl rfl⟩

end claims
